import Mathlib

/-!
# Verification of the region-style allocators (Arena / Stack / Pool)

Shallow embedding of the allocators implemented in `src/main.cpp`
(the revision containing `Arena`, `Stack`, `StackAllocationHeader`,
`calc_padding_with_header`, and `Pool`).

Modelling conventions:

* `size_t` / `uintptr_t` values are modelled as `Nat`.  The one place where
  unsigned wrap-around genuinely matters for the algorithms — the
  `align - base` subtraction inside the alignment primitives — is modelled
  exactly, via `wrapSub64` (subtraction modulo `2 ^ 64`).  Additions such as
  `m_memory + m_offset` are left unwrapped; theorems carry the side condition
  `m_memory + m_capacity < 2 ^ 64` satisfied by every real buffer.
* Pointers are modelled as their integer values (`Nat`), with `0` playing the
  role of `nullptr`, matching the `(uintptr_t)` casts in the source.
* Raw buffer bytes are a total map `Nat → Nat` (address to byte value);
  `std::memset(_, 0, n)` and `std::memmove` act on it (`memsetZero`,
  `memmove`).
* The `StackAllocationHeader` records that the Stack threads through the
  padding bytes are kept in a separate map `Nat → Option SAHeader` keyed by
  header address; `none` means no header has been stored at that address.
  Dereferencing a pointer whose target is absent (in particular the null
  pointer `0`) is undefined behaviour in the source; the Stack operations
  return `none` (of an outer `Option`) in exactly those situations.
* The source initialises a new header's `next_header` field from whatever
  bytes happen to be in the buffer (the field is never assigned at
  allocation time).  It is only ever read after a successor allocation has
  assigned it; the model stores `0` (null) at creation, which is never
  observed before being overwritten on the executions described here.
* `assert(is_power_of_two(align))` in the source is a no-op: the source's
  `is_power_of_two` returns `~(x & (x-1))`, which is non-zero (truthy) for
  every `uint64_t` input, so the assertion never fires.  Asserts are
  therefore modelled as no-ops.
-/

/-! ## Machine arithmetic primitives -/

/-- Unsigned 64-bit subtraction `a - b` (two's complement wrap), as used by
the source's `align - base` and `align - 1` expressions on `size_t`. -/
def wrapSub64 (a b : Nat) : Nat := (a + (2 ^ 64 - b % 2 ^ 64)) % 2 ^ 64

/-- `std::memset(lo, 0, n)` on a byte map. -/
def memsetZero (d : Nat → Nat) (lo n : Nat) : Nat → Nat :=
  fun x => if lo ≤ x ∧ x < lo + n then 0 else d x

/-- `std::memmove(dst, src, n)` on a byte map: the destination range receives
the original source bytes (overlap-tolerant, as if through a temporary). -/
def memmove (d : Nat → Nat) (dst src n : Nat) : Nat → Nat :=
  fun x => if dst ≤ x ∧ x < dst + n then d (src + (x - dst)) else d x

/-! ## Alignment primitives (`forward_align`, `calc_padding_with_header`) -/

/-- The padding `align - base & (align - 1)` computed (in `size_t`
arithmetic) by `forward_align` and `calc_padding_with_header`. -/
def alignPad (base align : Nat) : Nat :=
  wrapSub64 align base &&& wrapSub64 align 1

/-- `forward_align(base, align)` from the source: next address `≥ base`
aligned to `align` (for power-of-two `align`). -/
def forward_align (base align : Nat) : Nat := base + alignPad base align

/-- `calc_padding_with_header(base, align, header_size)` from the source. -/
def calc_padding_with_header (base align header_size : Nat) : Nat :=
  let padding := alignPad base align
  if padding < header_size then
    let space_needed := header_size - padding
    if space_needed &&& wrapSub64 align 1 ≠ 0 then
      padding + align * (1 + space_needed / align)
    else
      padding + space_needed
  else
    padding

/-! ## Arena (bump allocator) -/

/-- `struct Arena` from the source.  `m_memory` is the integer value of the
buffer pointer; `m_data` models the bytes of the address space. -/
structure Arena where
  m_memory : Nat
  m_prev_offset : Nat
  m_offset : Nat
  m_capacity : Nat
  m_data : Nat → Nat

/-- `Arena::alloc_aligned(bytes, align)`.  Returns the address (`0` for
`nullptr`) and the post-state. -/
def Arena.alloc_aligned (a : Arena) (bytes align : Nat) : Nat × Arena :=
  if bytes = 0 then (0, a)
  else
    let base_addr := a.m_memory + a.m_offset
    let aligned_addr := forward_align base_addr align
    let aligned_offset := aligned_addr - a.m_memory
    let next_offset := aligned_offset + bytes
    if a.m_capacity < next_offset then (0, a)
    else
      (aligned_addr,
        { a with
          m_prev_offset := a.m_offset
          m_offset := next_offset
          m_data := memsetZero a.m_data aligned_addr bytes })

/-- `Arena::resize_aligned(old_allocation, old_size, new_size, align)`. -/
def Arena.resize_aligned (a : Arena)
    (old_allocation old_size new_size align : Nat) : Nat × Arena :=
  if old_allocation = 0 ∨ old_size = 0 then (0, a)
  else if old_allocation < a.m_memory ∨
      a.m_memory + a.m_capacity < old_allocation then (0, a)
  else if a.m_memory + a.m_prev_offset = old_allocation then
    -- most-recent fast path: `m_offset` is updated first, and the source
    -- then zeroes `new_size - old_size` bytes starting at
    -- `m_memory + m_offset` (the *new* offset).
    let a1 := { a with m_offset := a.m_prev_offset + new_size }
    if old_size < new_size then
      (old_allocation,
        { a1 with
          m_data := memsetZero a1.m_data (a1.m_memory + a1.m_offset)
            (new_size - old_size) })
    else (old_allocation, a1)
  else
    let r := a.alloc_aligned new_size align
    if r.1 = 0 then (0, r.2)
    else
      let copy_size := if old_size < new_size then old_size else new_size
      (r.1, { r.2 with m_data := memmove r.2.m_data r.1 old_allocation copy_size })

/-- `Arena::reset()`. -/
def Arena.reset (a : Arena) : Arena := { a with m_offset := 0 }

/-- The Arena state invariants claimed by the specification. -/
def ArenaInv (a : Arena) : Prop :=
  a.m_offset ≤ a.m_capacity ∧ a.m_prev_offset ≤ a.m_offset

/-! ## Stack (LIFO allocator) -/

/-- `struct StackAllocationHeader`: `padding`, `prev_offset`,
`prev_header`, `next_header` (pointers as integers, `0` = null).
`sizeof(StackAllocationHeader) = 32` on the 64-bit target. -/
structure SAHeader where
  padding : Nat
  prev_offset : Nat
  prev_header : Nat
  next_header : Nat
deriving Repr, DecidableEq

/-- `constexpr size_t STACK_MAX_ALIGN = (size_t)1 << (8 * sizeof(size_t) - 1)`. -/
def STACK_MAX_ALIGN : Nat := 2 ^ 63

/-- `sizeof(StackAllocationHeader)`: four 8-byte fields. -/
def SAHeaderSize : Nat := 32

/-- `struct Stack`.  `headers` is the map of stored headers keyed by header
address (see the modelling notes above); `data` the raw buffer bytes. -/
structure Stack where
  m_memory : Nat
  m_capacity : Nat
  m_offset : Nat
  m_prev_offset : Nat
  m_prev_header : Nat
  headers : Nat → Option SAHeader
  data : Nat → Nat

/-- Store a header at an address. -/
def setHdr (m : Nat → Option SAHeader) (a : Nat) (hdr : SAHeader) :
    Nat → Option SAHeader :=
  fun x => if x = a then some hdr else m x

/-- `Stack::alloc_aligned(alloc_size, align)`.  The outer `Option` is `none`
exactly when the source would dereference a pointer with no stored target
(undefined behaviour); otherwise `some (address, post-state)` with address
`0` for `nullptr`. -/
def Stack.alloc_aligned (s : Stack) (alloc_size align : Nat) :
    Option (Nat × Stack) :=
  let al := if STACK_MAX_ALIGN < align then STACK_MAX_ALIGN else align
  let base_addr := s.m_memory + s.m_offset
  let padding := calc_padding_with_header base_addr al SAHeaderSize
  if s.m_capacity < s.m_offset + alloc_size + padding then some (0, s)
  else
    let next_aligned_addr := base_addr + padding
    let haddr := next_aligned_addr - SAHeaderSize
    -- `header->padding = (uint8_t)padding` truncates to a byte.
    let hdr : SAHeader := ⟨padding % 256, s.m_offset, s.m_prev_header, 0⟩
    let m1 := setHdr s.headers haddr hdr
    if s.m_prev_header = 0 then
      some (next_aligned_addr,
        { s with
          m_prev_offset := s.m_offset
          m_offset := s.m_offset + padding + alloc_size
          m_prev_header := haddr
          headers := m1
          data := memsetZero s.data next_aligned_addr alloc_size })
    else
      match m1 s.m_prev_header with
      | none => none
      | some ph =>
        some (next_aligned_addr,
          { s with
            m_prev_offset := s.m_offset
            m_offset := s.m_offset + padding + alloc_size
            m_prev_header := haddr
            headers := setHdr m1 s.m_prev_header { ph with next_header := haddr }
            data := memsetZero s.data next_aligned_addr alloc_size })

/-- `Stack::free(alloc)`. -/
def Stack.free (s : Stack) (alloc : Nat) : Option (Bool × Stack) :=
  if alloc = 0 then some (false, s)
  else if alloc < s.m_memory ∨ s.m_memory + s.m_capacity < alloc then
    some (false, s)
  else if s.m_memory + s.m_offset ≤ alloc then some (false, s)
  else
    match s.headers (alloc - SAHeaderSize) with
    | none => none
    | some hdr =>
      if s.m_prev_offset ≠ hdr.prev_offset then some (false, s)
      else if hdr.prev_header = 0 then
        some (true,
          { s with m_offset := s.m_prev_offset, m_prev_offset := 0,
                   m_prev_header := 0 })
      else
        match s.headers hdr.prev_header with
        | none => none
        | some ph =>
          some (true,
            { s with m_offset := s.m_prev_offset,
                     m_prev_offset := ph.prev_offset,
                     m_prev_header := hdr.prev_header })

/-- `Stack::resize_aligned(old_allocation, old_size, new_size, align)`.
On a failed internal bump allocation the source calls
`std::memmove((void*)0, …)` — a null-pointer write — before returning;
that execution is undefined behaviour and is modelled as `none`.  The
same holds for the unguarded `header->prev_header->next_header` store when
`header->prev_header` is null. -/
def Stack.resize_aligned (s : Stack)
    (old_allocation old_size new_size align : Nat) : Option (Nat × Stack) :=
  if old_allocation = 0 then s.alloc_aligned new_size align
  else if new_size = 0 then
    match s.free old_allocation with
    | none => none
    | some (_, s') => some (0, s')
  else if old_allocation < s.m_memory ∨
      s.m_memory + s.m_capacity < old_allocation then some (0, s)
  else if s.m_memory + s.m_offset ≤ old_allocation then some (0, s)
  else
    match s.headers (old_allocation - SAHeaderSize) with
    | none => none
    | some hdr =>
      if old_allocation - SAHeaderSize = s.m_prev_header then
        -- top-allocation fast path; note the source zeroes `new_size`
        -- bytes starting at `old_alloc + old_size` when growing.
        let d1 := if old_size < new_size then
            memsetZero s.data (old_allocation + old_size) new_size
          else s.data
        some (old_allocation,
          { s with data := d1,
                   m_offset := (old_allocation - s.m_memory) + new_size })
      else if hdr.prev_header = 0 ∧ hdr.next_header = 0 then
        -- already-retired middle block
        some (0, s)
      else
        match s.alloc_aligned new_size align with
        | none => none
        | some (ra, s1) =>
          if ra = 0 then none  -- memmove into nullptr: undefined behaviour
          else
            let min_size := if old_size < new_size then old_size else new_size
            let d2 := memmove s1.data ra old_allocation min_size
            -- splice the retired header out (fields re-read after the bump)
            match s1.headers (old_allocation - SAHeaderSize) with
            | none => none
            | some hdr1 =>
              if hdr1.next_header = 0 then none  -- null `next_header` deref
              else
                match s1.headers hdr1.next_header with
                | none => none
                | some nh =>
                  let m1 := setHdr s1.headers hdr1.next_header
                    { nh with padding := nh.padding + hdr1.padding,
                              prev_offset := hdr1.prev_offset,
                              prev_header := hdr1.prev_header }
                  if hdr1.prev_header = 0 then none  -- null `prev_header` deref
                  else
                    match m1 hdr1.prev_header with
                    | none => none
                    | some ph =>
                      let m2 := setHdr m1 hdr1.prev_header
                        { ph with next_header := hdr1.next_header }
                      let m3 := setHdr m2 (old_allocation - SAHeaderSize)
                        { hdr1 with prev_header := 0, next_header := 0 }
                      some (ra, { s1 with data := d2, headers := m3 })

/-- `Stack::reset()`. -/
def Stack.reset (s : Stack) : Stack :=
  { s with m_offset := 0, m_prev_offset := 0, m_prev_header := 0 }

/-! ### Ghost chain of live Stack allocations

`ChainL mem hmap hs po o` states that `hs` is the list of live header
addresses (top first) of a well-formed Stack whose backing map is `hmap`,
whose allocator `m_prev_offset` is `po` and whose `m_offset` is `o`. -/

inductive ChainL (mem : Nat) (hmap : Nat → Option SAHeader) :
    List Nat → Nat → Nat → Prop
  | nil : ∀ o, ChainL mem hmap [] 0 o
  | cons : ∀ h hs hdr po q o,
      hmap h = some hdr →
      hdr.prev_offset = po →
      hdr.prev_header = hs.headD 0 →
      mem + po ≤ h →
      h + SAHeaderSize < mem + o →
      ChainL mem hmap hs q po →
      ChainL mem hmap (h :: hs) po o

/-- Well-formedness of a Stack state with live header list `hs`. -/
def GoodChainL (s : Stack) (hs : List Nat) : Prop :=
  0 < s.m_memory ∧
  s.m_memory + s.m_capacity < 2 ^ 64 ∧
  s.m_offset ≤ s.m_capacity ∧
  s.m_prev_header = hs.headD 0 ∧
  ChainL s.m_memory s.headers hs s.m_prev_offset s.m_offset

/-- Agreement of two header maps on the `prev`-fields of all headers stored
below address `B`. -/
def agreePB (B : Nat) (m1 m2 : Nat → Option SAHeader) : Prop :=
  ∀ x hdr, x < B → m1 x = some hdr →
    ∃ hdr2, m2 x = some hdr2 ∧ hdr2.prev_offset = hdr.prev_offset ∧
      hdr2.prev_header = hdr.prev_header

/-- The padding `Stack::alloc_aligned` computes for a state (after the
alignment clamp). -/
def stackPad (s : Stack) (align : Nat) : Nat :=
  calc_padding_with_header (s.m_memory + s.m_offset)
    (if STACK_MAX_ALIGN < align then STACK_MAX_ALIGN else align) SAHeaderSize

/-- Run a list of `(size, align)` allocation requests, collecting the
addresses of the successful allocations in order. -/
def runAllocs (s : Stack) : List (Nat × Nat) → Option (Stack × List Nat)
  | [] => some (s, [])
  | (sz, al) :: rest =>
    match s.alloc_aligned sz al with
    | none => none
    | some (a, s') =>
      match runAllocs s' rest with
      | none => none
      | some (sf, acc) => some (sf, if a = 0 then acc else a :: acc)

/-- Free a list of addresses in order, conjoining the returned flags. -/
def runFrees (s : Stack) : List Nat → Option (Bool × Stack)
  | [] => some (true, s)
  | a :: rest =>
    match s.free a with
    | none => none
    | some (ok, s') =>
      match runFrees s' rest with
      | none => none
      | some (allok, sf) => some (ok && allok, sf)

/-- A freshly constructed Stack over a buffer. -/
def Stack.fresh (mem cap : Nat) (d : Nat → Nat) : Stack :=
  ⟨mem, cap, 0, 0, 0, fun _ => none, d⟩

/-! ## Pool (fixed-size chunk allocator) -/

/-- `struct Pool`.  The free list is threaded through the chunks
themselves: `nexts a` is the pointer stored at address `a` (`none` =
nothing stored there yet, `some v` = pointer value `v`, `0` = null). -/
structure Pool where
  m_memory : Nat
  m_aligned_memory : Nat
  m_capacity : Nat
  m_chunk_size : Nat
  m_free_list_head : Nat
  nexts : Nat → Option Nat

/-- `Pool::free_all()`: pushes every chunk onto the *existing* free list. -/
def Pool.free_all (p : Pool) : Pool :=
  (List.range (p.m_capacity / p.m_chunk_size)).foldl
    (fun q i =>
      let chunk := q.m_aligned_memory + i * q.m_chunk_size
      { q with
        nexts := fun x => if x = chunk then some q.m_free_list_head else q.nexts x
        m_free_list_head := chunk })
    p

/-- The `Pool` constructor: returns the validity flag and the state. -/
def Pool.init (memory capacity chunk_size chunk_align : Nat) : Bool × Pool :=
  let aligned := forward_align memory chunk_align
  let cap2 := wrapSub64 capacity (aligned - memory)
  let cs2 := forward_align chunk_size chunk_align
  let p0 : Pool :=
    { m_memory := memory, m_aligned_memory := aligned, m_capacity := cap2,
      m_chunk_size := cs2, m_free_list_head := 0, nexts := fun _ => none }
  if chunk_size < 8 ∨ cap2 < cs2 then (false, p0)
  else (true, p0.free_all)

/-- `ListsTo nexts head l`: starting from pointer `head` and following the
stored `next` pointers reaches null after visiting exactly the nodes in
`l`.  This is what "the free list consists of the nodes `l`" means. -/
inductive ListsTo (nexts : Nat → Option Nat) : Nat → List Nat → Prop
  | nil : ListsTo nexts 0 []
  | cons : ∀ a v l, a ≠ 0 → nexts a = some v → ListsTo nexts v l →
      ListsTo nexts a (a :: l)

/-- The chunk-start addresses `aligned + i * cs` for `i < n`, listed in the
order `free_all` stacks them (chunk `n-1` on top). -/
def chunkList (a cs n : Nat) : List Nat :=
  (List.range n).reverse.map (fun i => a + i * cs)

/-- One iteration of the `free_all` loop: push chunk `i` onto the existing
free list. -/
def poolStep (q : Pool) (i : Nat) : Pool :=
  let chunk := q.m_aligned_memory + i * q.m_chunk_size
  { q with
    nexts := fun x => if x = chunk then some q.m_free_list_head else q.nexts x
    m_free_list_head := chunk }

/-- The first `n` iterations of the `free_all` loop. -/
def Pool.free_all_n (p : Pool) (n : Nat) : Pool :=
  (List.range n).foldl poolStep p

/-- A concrete Stack state with two live allocations (headers at 64 and
104, user regions at 96 and 136), used as a witness input below. -/
def stackTwoLive : Stack :=
  ⟨64, 512, 80, 40, 104,
    fun x => if x = 64 then some ⟨32, 0, 0, 104⟩
      else if x = 104 then some ⟨32, 40, 64, 0⟩ else none,
    fun _ => 0⟩

/-- A concrete Stack state with one live allocation (header at 64, user
region at 96, offset 40), used as a witness input below. -/
def c4s1 : Stack :=
  ⟨64, 1024, 40, 0, 64,
    fun x => if x = 64 then some ⟨32, 0, 0, 0⟩ else none,
    fun _ => 0⟩

/-- The state after allocating the middle block B from `c4s1`. -/
def c4s2 : Stack := ((c4s1.alloc_aligned 8 8).getD (0, c4s1)).2

/-- The state after allocating the top block C from `c4s2`. -/
def c4s3 : Stack := ((c4s2.alloc_aligned 8 8).getD (0, c4s2)).2

/-- The state after the non-top resize of B from `c4s3`. -/
def c4s4 : Stack := ((c4s3.resize_aligned 136 8 16 8).getD (0, c4s3)).2

/-! ## Theorems: alignment primitives -/

theorem wrapSub64_one {al : Nat} (h0 : 0 < al) (h64 : al < 2 ^ 64) :
    wrapSub64 al 1 = al - 1 := by
  unfold wrapSub64
  have h1 : (1 : Nat) % 2 ^ 64 = 1 := by norm_num
  rw [h1]
  have h2 : al + (2 ^ 64 - 1) = (al - 1) + 2 ^ 64 := by omega
  rw [h2, Nat.add_mod_right, Nat.mod_eq_of_lt (by omega)]

/-- The masked wrapped difference equals the natural alignment padding
`(2^k - base % 2^k) % 2^k`, for any power-of-two alignment representable in
`size_t` and any `uintptr_t` base. -/
theorem alignPad_eq_mod {k base : Nat} (hk : k ≤ 63) (hb : base < 2 ^ 64) :
    alignPad base (2 ^ k) = (2 ^ k - base % 2 ^ k) % 2 ^ k := by
  have hapos : 0 < (2 : Nat) ^ k := Nat.pos_pow_of_pos _ (by norm_num)
  have halt : (2 : Nat) ^ k < 2 ^ 64 :=
    Nat.pow_lt_pow_right (by norm_num) (by omega)
  unfold alignPad
  rw [wrapSub64_one hapos halt, Nat.and_pow_two_sub_one_eq_mod]
  unfold wrapSub64
  rw [Nat.mod_eq_of_lt hb]
  have hdvd : (2 : Nat) ^ k ∣ 2 ^ 64 := pow_dvd_pow 2 (by omega)
  rw [Nat.mod_mod_of_dvd _ hdvd]
  -- Decompose 2^64 = 2^k * M and base = 2^k * q + r
  obtain ⟨M, hM⟩ := hdvd
  set a := (2 : Nat) ^ k with ha
  have hqr : a * (base / a) + base % a = base := Nat.div_add_mod base a
  set q := base / a with hq
  set r := base % a with hr
  have hrlt : r < a := Nat.mod_lt _ hapos
  have hqM : q < M := by
    rw [hq, Nat.div_lt_iff_lt_mul hapos]
    calc base < 2 ^ 64 := hb
    _ = M * a := by rw [hM]; ring
  have hsplit : a * (M - q) + a * q = a * M := by
    rw [← Nat.mul_add]
    congr 1
    omega
  have hexpr : a + (2 ^ 64 - base) = (a - r) + a * (M - q) := by
    rw [hM]
    omega
  rw [hexpr]
  have : a * (M - q) = (M - q) * a := by ring
  rw [this, Nat.add_mul_mod_self_right]

theorem alignPad_lt {k base : Nat} (hk : k ≤ 63) (hb : base < 2 ^ 64) :
    alignPad base (2 ^ k) < 2 ^ k := by
  rw [alignPad_eq_mod hk hb]
  exact Nat.mod_lt _ (Nat.pos_pow_of_pos _ (by norm_num))

/-- The natural padding makes `base + padding` aligned. -/
theorem alignPad_aligned {k base : Nat} (hk : k ≤ 63) (hb : base < 2 ^ 64) :
    (base + alignPad base (2 ^ k)) % 2 ^ k = 0 := by
  have hapos : 0 < (2 : Nat) ^ k := Nat.pos_pow_of_pos _ (by norm_num)
  rw [alignPad_eq_mod hk hb]
  set a := (2 : Nat) ^ k with ha
  have hqr : a * (base / a) + base % a = base := Nat.div_add_mod base a
  set q := base / a with hq
  set r := base % a with hr
  have hrlt : r < a := Nat.mod_lt _ hapos
  rcases Nat.eq_zero_or_pos r with h0 | hpos
  · have e1 : (a - r) % a = 0 := by rw [h0, Nat.sub_zero, Nat.mod_self]
    rw [e1, Nat.add_zero, ← hqr, h0, Nat.add_zero, Nat.mul_mod_right]
  · have e1 : (a - r) % a = a - r := Nat.mod_eq_of_lt (by omega)
    rw [e1]
    have e2 : base + (a - r) = a * q + a := by omega
    rw [e2]
    have e3 : a * q + a = a * (q + 1) := by ring
    rw [e3, Nat.mul_mod_right]

/-- `alignPad` is the least padding achieving alignment: any `p` with
`(base + p) % 2^k = 0` is congruent to it and at least it. -/
theorem alignPad_min {k base p : Nat} (hk : k ≤ 63) (hb : base < 2 ^ 64)
    (hp : (base + p) % 2 ^ k = 0) :
    p % 2 ^ k = alignPad base (2 ^ k) := by
  have hapos : 0 < (2 : Nat) ^ k := Nat.pos_pow_of_pos _ (by norm_num)
  have h1 := alignPad_aligned hk hb
  have h2 : alignPad base (2 ^ k) < 2 ^ k := alignPad_lt hk hb
  set a := (2 : Nat) ^ k with ha
  have hme : base + p ≡ base + alignPad base a [MOD a] := by
    unfold Nat.ModEq
    rw [hp, h1]
  have hc : p ≡ alignPad base a [MOD a] := Nat.ModEq.add_left_cancel' base hme
  have h3 : p % a = alignPad base a % a := hc
  rwa [Nat.mod_eq_of_lt h2] at h3

/-- Characterisation of `calc_padding_with_header` for power-of-two
alignment: the result `p` aligns `base + p`, leaves room for the header
(`header_size ≤ p`), and is the smallest such padding; moreover it is the
natural padding extended by whole multiples of the alignment. -/
theorem calc_padding_spec {k base header_size : Nat} (hk : k ≤ 63)
    (hb : base < 2 ^ 64) :
    (base + calc_padding_with_header base (2 ^ k) header_size) % 2 ^ k = 0 ∧
    header_size ≤ calc_padding_with_header base (2 ^ k) header_size ∧
    (∃ m, calc_padding_with_header base (2 ^ k) header_size
        = alignPad base (2 ^ k) + 2 ^ k * m) ∧
    (∀ q, (base + q) % 2 ^ k = 0 → header_size ≤ q →
      calc_padding_with_header base (2 ^ k) header_size ≤ q) := by
  have hapos : 0 < (2 : Nat) ^ k := Nat.pos_pow_of_pos _ (by norm_num)
  have halt : (2 : Nat) ^ k < 2 ^ 64 :=
    Nat.pow_lt_pow_right (by norm_num) (by omega)
  set a := (2 : Nat) ^ k with ha
  set p0 := alignPad base a with hp0
  have hp0a : (base + p0) % a = 0 := alignPad_aligned hk hb
  have hmask : ∀ x : Nat, x &&& wrapSub64 a 1 = x % a := by
    intro x
    rw [wrapSub64_one hapos halt, ha, Nat.and_pow_two_sub_one_eq_mod]
  -- helper: adding a multiple of the alignment preserves alignment
  have haligned : ∀ m : Nat, (base + (p0 + a * m)) % a = 0 := by
    intro m
    rw [← Nat.add_assoc]
    have : a * m = m * a := by ring
    rw [this, Nat.add_mul_mod_self_right, hp0a]
  -- helper: any aligned q decomposes as p0 + a * t
  have hdecomp : ∀ q, (base + q) % a = 0 → ∃ t, q = p0 + a * t := by
    intro q hq
    have hmod : q % a = p0 := alignPad_min hk hb hq
    refine ⟨q / a, ?_⟩
    have := Nat.div_add_mod q a
    omega
  have hunfold : calc_padding_with_header base a header_size =
      if p0 < header_size then
        if (header_size - p0) % a ≠ 0 then
          p0 + a * (1 + (header_size - p0) / a)
        else p0 + (header_size - p0)
      else p0 := by
    show (if p0 < header_size then
        if (header_size - p0) &&& wrapSub64 a 1 ≠ 0 then
          p0 + a * (1 + (header_size - p0) / a)
        else p0 + (header_size - p0)
      else p0) = _
    rw [hmask]
  rw [hunfold]
  by_cases hcase : p0 < header_size
  · rw [if_pos hcase]
    set s := header_size - p0 with hs
    have hspos : 0 < s := by omega
    by_cases hdiv : s % a ≠ 0
    · rw [if_pos hdiv]
      have hsplit : a * (s / a) + s % a = s := Nat.div_add_mod s a
      have hslt : s % a < a := Nat.mod_lt _ hapos
      refine ⟨haligned _, ?_, ⟨_, rfl⟩, ?_⟩
      · -- header_size ≤ p0 + a * (1 + s / a)
        have : a * (1 + s / a) = a + a * (s / a) := by ring
        omega
      · intro q hq hhq
        obtain ⟨t, ht⟩ := hdecomp q hq
        -- q ≥ header_size = p0 + s  ⇒  a * t ≥ s  ⇒  t ≥ s/a + 1 (a ∤ s)
        have h1 : a * (s / a) + s % a ≤ a * t := by omega
        have h2 : s / a < t := by
          by_contra hcon
          push_neg at hcon
          have := Nat.mul_le_mul_left a hcon
          omega
        have h3 : a * (1 + s / a) ≤ a * t :=
          Nat.mul_le_mul_left a (by omega)
        omega
    · rw [if_neg hdiv]
      push_neg at hdiv
      have hsplit : a * (s / a) + s % a = s := Nat.div_add_mod s a
      refine ⟨?_, by omega, ⟨s / a, by omega⟩, ?_⟩
      · have : p0 + s = p0 + a * (s / a) := by omega
        rw [this]
        exact haligned _
      · intro q hq hhq
        omega
  · rw [if_neg hcase]
    push_neg at hcase
    refine ⟨hp0a, hcase, ⟨0, by omega⟩, ?_⟩
    intro q hq hhq
    obtain ⟨t, ht⟩ := hdecomp q hq
    omega

/-- Claim C3: for every `uintptr_t` base, every representable power-of-two
align `2^k` and every `header_size`, `calc_padding_with_header` returns the
smallest `p` with `(base + p) % align = 0` and `header_size ≤ p`, reached
from the natural alignment padding by adding whole multiples of the
alignment; and the six concrete reference values hold. -/
theorem c3_calc_padding_minimal :
    (∀ base header_size k, k ≤ 63 → base < 2 ^ 64 →
      ((base + calc_padding_with_header base (2 ^ k) header_size) % 2 ^ k = 0 ∧
       header_size ≤ calc_padding_with_header base (2 ^ k) header_size ∧
       (∃ m, calc_padding_with_header base (2 ^ k) header_size
           = alignPad base (2 ^ k) + 2 ^ k * m) ∧
       (∀ q, (base + q) % 2 ^ k = 0 → header_size ≤ q →
         calc_padding_with_header base (2 ^ k) header_size ≤ q))) ∧
    calc_padding_with_header 0 8 1 = 8 ∧
    calc_padding_with_header 0 8 7 = 8 ∧
    calc_padding_with_header 1 8 1 = 7 ∧
    calc_padding_with_header 15 8 0 = 1 ∧
    calc_padding_with_header 1 8 14 = 15 ∧
    calc_padding_with_header 1 8 32 = 39 := by
  refine ⟨fun base header_size k hk hb => calc_padding_spec hk hb,
    ?_, ?_, ?_, ?_, ?_, ?_⟩ <;> decide

/-- Witness for C3 at `base = 1`, `align = 8`, `header_size = 14`. -/
theorem c3_calc_padding_minimal_witness :
    (1 + calc_padding_with_header 1 (2 ^ 3) 14) % 2 ^ 3 = 0 ∧
    14 ≤ calc_padding_with_header 1 (2 ^ 3) 14 :=
  ⟨(c3_calc_padding_minimal.1 1 14 3 (by norm_num) (by norm_num)).1,
   (c3_calc_padding_minimal.1 1 14 3 (by norm_num) (by norm_num)).2.1⟩

/-! ## Theorems: Arena -/

/-- Unfolding equation for `Arena.alloc_aligned`. -/
theorem arena_alloc_aligned_eq (a : Arena) (bytes align : Nat) :
    a.alloc_aligned bytes align =
      if bytes = 0 then (0, a)
      else if a.m_capacity <
          (forward_align (a.m_memory + a.m_offset) align - a.m_memory) + bytes
        then (0, a)
      else
        (forward_align (a.m_memory + a.m_offset) align,
          { a with
            m_prev_offset := a.m_offset
            m_offset :=
              (forward_align (a.m_memory + a.m_offset) align - a.m_memory) + bytes
            m_data := memsetZero a.m_data
              (forward_align (a.m_memory + a.m_offset) align) bytes }) := rfl

/-- The Arena part of claim C1: a successful `alloc_aligned(bytes, 2^k)`
with `bytes > 0` returns an aligned address, the region lies inside
`[memory, memory + capacity)`, and it is zero-filled. -/
theorem arena_alloc_props (a : Arena) (bytes k : Nat) (hk : k ≤ 63)
    (hmem : 0 < a.m_memory) (har : a.m_memory + a.m_offset < 2 ^ 64)
    (hbytes : 0 < bytes)
    (hsucc : (a.alloc_aligned bytes (2 ^ k)).1 ≠ 0) :
    (a.alloc_aligned bytes (2 ^ k)).1 % 2 ^ k = 0 ∧
    a.m_memory ≤ (a.alloc_aligned bytes (2 ^ k)).1 ∧
    (a.alloc_aligned bytes (2 ^ k)).1 + bytes ≤ a.m_memory + a.m_capacity ∧
    (∀ x, (a.alloc_aligned bytes (2 ^ k)).1 ≤ x →
      x < (a.alloc_aligned bytes (2 ^ k)).1 + bytes →
      (a.alloc_aligned bytes (2 ^ k)).2.m_data x = 0) := by
  rw [arena_alloc_aligned_eq] at *
  rw [if_neg (by omega : ¬ bytes = 0)] at *
  by_cases hcap : a.m_capacity <
      (forward_align (a.m_memory + a.m_offset) (2 ^ k) - a.m_memory) + bytes
  · rw [if_pos hcap] at hsucc
    exact absurd rfl hsucc
  · rw [if_neg hcap] at *
    push_neg at hcap
    unfold forward_align at *
    constructor
    · exact alignPad_aligned hk har
    refine ⟨by omega, by omega, ?_⟩
    intro x hx1 hx2
    show memsetZero a.m_data _ bytes x = 0
    unfold memsetZero
    rw [if_pos ⟨hx1, hx2⟩]

/-- Counterexample to claim C6 as stated: in an Arena at base 8 with
capacity 16, `alloc_aligned(1,1)` returns 8, then `alloc_aligned(1,2)`
returns 10 (one byte of alignment padding), and `resize_aligned(10,1,2,2)`
— a resize of the address returned by the most recent successful
allocation — returns the fresh address 12, not 10: the fast-path test
`old_addr == memory + prev_offset` misses allocations that required
padding. -/
theorem c6_resize_most_recent_cex :
    (((⟨8, 0, 0, 16, fun _ => 0⟩ : Arena).alloc_aligned 1 1).1 = 8 ∧
     ((((⟨8, 0, 0, 16, fun _ => 0⟩ : Arena).alloc_aligned 1 1).2).alloc_aligned 1 2).1 = 10) ∧
    ((((((⟨8, 0, 0, 16, fun _ => 0⟩ : Arena).alloc_aligned 1 1).2).alloc_aligned 1 2).2).resize_aligned
        10 1 2 2).1 = 12 ∧ (12 : Nat) ≠ 10 := by decide

/-- Claim C6, amended: `resize_aligned` returns the same address whenever
`old_addr = memory + prev_offset` (which is how the source detects "the
most recent allocation", and holds for the most recent allocation exactly
when it needed no alignment padding), for growing and shrinking alike. -/
theorem c6_resize_most_recent_unpadded_returns_same
    (a : Arena) (old_size new_size align : Nat)
    (hmem : 0 < a.m_memory) (hprev : a.m_prev_offset ≤ a.m_capacity)
    (hos : 0 < old_size) :
    (a.resize_aligned (a.m_memory + a.m_prev_offset) old_size new_size align).1
      = a.m_memory + a.m_prev_offset := by
  unfold Arena.resize_aligned
  rw [if_neg (by omega : ¬ (a.m_memory + a.m_prev_offset = 0 ∨ old_size = 0))]
  rw [if_neg (by omega : ¬ (a.m_memory + a.m_prev_offset < a.m_memory ∨
    a.m_memory + a.m_capacity < a.m_memory + a.m_prev_offset))]
  rw [if_pos rfl]
  split <;> rfl

/-- Witness for the amended C6: resizing (shrinking) the unpadded
most-recent allocation of a concrete Arena returns its own address. -/
theorem c6_resize_most_recent_unpadded_returns_same_witness :
    (((⟨64, 0, 4, 16, fun _ => 0⟩ : Arena)).resize_aligned (64 + 0) 4 2 4).1
      = 64 + 0 :=
  c6_resize_most_recent_unpadded_returns_same ⟨64, 0, 4, 16, fun _ => 0⟩ 4 2 4
    (by norm_num) (by norm_num) (by norm_num)

/-- Claim C7 evaluated at a failing input: Arena at base 64, capacity 16,
buffer initially all-ones.  `alloc_aligned(4,4)` returns 64; the fast-path
`resize_aligned(64, 4, 8, 4)` returns 64 and sets `offset = prev_offset +
new_size = 8` as claimed, but the newly revealed tail byte at address 68
still holds 1: the source zeroes `new_size - old_size` bytes starting at
`m_memory + m_offset` *after* the offset update, i.e. the range
`[72, 76)` beyond the grown allocation, not the revealed tail `[68, 72)`. -/
theorem c7_fast_path_reveals_unzeroed_tail :
    (((⟨64, 0, 0, 16, fun _ => 1⟩ : Arena).alloc_aligned 4 4).1 = 64 ∧
     ((((⟨64, 0, 0, 16, fun _ => 1⟩ : Arena).alloc_aligned 4 4).2).resize_aligned 64 4 8 4).1 = 64) ∧
    ((((⟨64, 0, 0, 16, fun _ => 1⟩ : Arena).alloc_aligned 4 4).2).resize_aligned 64 4 8 4).2.m_offset = 8 ∧
    ((((⟨64, 0, 0, 16, fun _ => 1⟩ : Arena).alloc_aligned 4 4).2).resize_aligned 64 4 8 4).2.m_data 68 = 1 ∧
    ((((⟨64, 0, 0, 16, fun _ => 1⟩ : Arena).alloc_aligned 4 4).2).resize_aligned 64 4 8 4).2.m_data 72 = 0 := by
  decide

/-- Counterexample to claim C8 as stated: both invariants fail after
reachable operation sequences.  After two successful allocations and a
`reset`, `prev_offset = 4 > 0 = offset`; after one allocation and a
growing fast-path `resize_aligned`, `offset = 100 > 8 = capacity`. -/
theorem c8_arena_invariants_cex :
    (¬ ArenaInv ((((⟨64, 0, 0, 8, fun _ => 0⟩ : Arena).alloc_aligned 4 4).2.alloc_aligned 4 4).2.reset)) ∧
    (¬ ArenaInv (((⟨64, 0, 0, 8, fun _ => 0⟩ : Arena).alloc_aligned 4 4).2.resize_aligned 64 4 100 4).2) :=
  ⟨fun h => absurd h.2 (by decide), fun h => absurd h.1 (by decide)⟩

/-- Claim C8, amended: the invariants `offset ≤ capacity` and
`prev_offset ≤ offset` hold initially and are preserved by
`alloc_aligned`; `resize_aligned` preserves `prev_offset ≤ offset` (but
the fast path does not re-check capacity); `reset` preserves
`offset ≤ capacity` (but leaves `prev_offset` untouched, so
`prev_offset ≤ offset` can fail after `reset`). -/
theorem c8_arena_invariants_amended :
    (∀ mem cap d, ArenaInv ⟨mem, 0, 0, cap, d⟩) ∧
    (∀ (a : Arena) bytes align,
      ArenaInv a → ArenaInv (a.alloc_aligned bytes align).2) ∧
    (∀ (a : Arena) oa os ns align, a.m_prev_offset ≤ a.m_offset →
      (a.resize_aligned oa os ns align).2.m_prev_offset ≤
        (a.resize_aligned oa os ns align).2.m_offset) ∧
    (∀ a : Arena, a.m_offset ≤ a.m_capacity →
      a.reset.m_offset ≤ a.reset.m_capacity) := by
  have halloc : ∀ (a : Arena) bytes align,
      ArenaInv a → ArenaInv (a.alloc_aligned bytes align).2 := by
    intro a bytes align hinv
    rw [arena_alloc_aligned_eq]
    by_cases h0 : bytes = 0
    · rw [if_pos h0]; exact hinv
    · rw [if_neg h0]
      by_cases hcap : a.m_capacity <
          (forward_align (a.m_memory + a.m_offset) align - a.m_memory) + bytes
      · rw [if_pos hcap]; exact hinv
      · rw [if_neg hcap]
        push_neg at hcap
        unfold forward_align at hcap ⊢
        unfold ArenaInv
        refine ⟨?_, ?_⟩ <;> dsimp only <;> omega
  refine ⟨?_, halloc, ?_, ?_⟩
  · intro mem cap d
    exact ⟨Nat.zero_le _, Nat.zero_le _⟩
  · intro a oa os ns align hpo
    unfold Arena.resize_aligned
    split
    · exact hpo
    split
    · exact hpo
    split
    · split <;> (dsimp only; omega)
    · dsimp only
      split
      · dsimp only
        rw [arena_alloc_aligned_eq]
        split
        · exact hpo
        split
        · exact hpo
        · dsimp only; unfold forward_align; omega
      · dsimp only
        rw [arena_alloc_aligned_eq]
        split
        · exact hpo
        split
        · exact hpo
        · dsimp only; unfold forward_align; omega
  · intro a _
    exact Nat.zero_le _

/-- Witness for the amended C8 at concrete inputs. -/
theorem c8_arena_invariants_amended_witness :
    ArenaInv ((⟨64, 0, 0, 8, fun _ => 0⟩ : Arena).alloc_aligned 4 4).2 ∧
    ((⟨64, 2, 3, 8, fun _ => 0⟩ : Arena).resize_aligned 1 1 1 1).2.m_prev_offset ≤
      ((⟨64, 2, 3, 8, fun _ => 0⟩ : Arena).resize_aligned 1 1 1 1).2.m_offset :=
  ⟨c8_arena_invariants_amended.2.1 ⟨64, 0, 0, 8, fun _ => 0⟩ 4 4
      ⟨Nat.zero_le _, Nat.zero_le _⟩,
   c8_arena_invariants_amended.2.2.1 ⟨64, 2, 3, 8, fun _ => 0⟩ 1 1 1 1
      (by norm_num)⟩

/-! ## Theorems: Stack, concrete executions -/

/-- Claim C5 evaluated at a failing input: Stack at base 64 with capacity
200; three 8-byte allocations at alignment 8 return 96, 136 and 176, then
`resize_aligned(136, 8, 100, 8)` — a non-top resize whose internal bump
allocation fails (`120 + 100 + 32 > 200`) — runs into undefined behaviour:
the source does not check the bump result for null and calls
`std::memmove` with a null destination (and would then splice the header
links of the "retired" block anyway).  The model returns `none`. -/
theorem c5_nontop_resize_bump_failure_is_ub :
    ∃ s1 s2 s3,
      (Stack.fresh 64 200 (fun _ => 0)).alloc_aligned 8 8 = some (96, s1) ∧
      s1.alloc_aligned 8 8 = some (136, s2) ∧
      s2.alloc_aligned 8 8 = some (176, s3) ∧
      s3.resize_aligned 136 8 100 8 = none :=
  ⟨_, _, _, rfl, rfl, rfl, rfl⟩

/-- Claim C9 evaluated at a failing input: Stack at base 64 with capacity
256; two live 8-byte allocations at 96 (bottom-most, its header's
`prev_header` is null) and 136.  `resize_aligned(96, 8, 16, 8)` resizes
the bottom-most live allocation with a live allocation above it: the
internal bump allocation succeeds, but the splice then executes
`header->prev_header->next_header = …` with `header->prev_header == null`
— an unguarded null dereference.  The model returns `none`. -/
theorem c9_bottom_resize_null_deref :
    ∃ s1 s2,
      (Stack.fresh 64 256 (fun _ => 0)).alloc_aligned 8 8 = some (96, s1) ∧
      s1.alloc_aligned 8 8 = some (136, s2) ∧
      s2.resize_aligned 96 8 16 8 = none :=
  ⟨_, _, rfl, rfl, rfl⟩

/-- Counterexample to claim C2 as stated: on a fresh Stack at base 64 with
capacity 256, `alloc_aligned(0, 1)` *succeeds* (returns the non-null
address 96) after consuming 32 bytes of padding, but freeing that very
address — the top allocation — returns `false` (the address equals
`memory + offset`, which the double-free guard rejects), so pairing every
successful `alloc_aligned` with a LIFO `free` leaves `offset = 32 ≠ 0`. -/
theorem c2_stack_free_lifo_cex :
    ∃ s1,
      (Stack.fresh 64 256 (fun _ => 0)).alloc_aligned 0 1 = some (96, s1) ∧
      s1.free 96 = some (false, s1) ∧
      runAllocs (Stack.fresh 64 256 (fun _ => 0)) [(0, 1)] = some (s1, [96]) ∧
      runFrees s1 [96] = some (false, s1) ∧
      s1.m_offset = 32 ∧ (32 : Nat) ≠ 0 :=
  ⟨_, rfl, rfl, rfl, rfl, rfl, by norm_num⟩

/-! ## Theorems: Stack chain machinery -/

theorem setHdr_same (m : Nat → Option SAHeader) (a : Nat) (hdr : SAHeader) :
    setHdr m a hdr a = some hdr := by
  unfold setHdr
  rw [if_pos rfl]

theorem setHdr_other (m : Nat → Option SAHeader) (a x : Nat) (hdr : SAHeader)
    (h : x ≠ a) : setHdr m a hdr x = m x := by
  unfold setHdr
  rw [if_neg h]

theorem agreePB_refl (B : Nat) (m : Nat → Option SAHeader) : agreePB B m m :=
  fun _ hdr _ hm => ⟨hdr, hm, rfl, rfl⟩

theorem agreePB_mono {B B' : Nat} {m1 m2 : Nat → Option SAHeader}
    (h : agreePB B m1 m2) (hle : B' ≤ B) : agreePB B' m1 m2 :=
  fun x hdr hx hm => h x hdr (by omega) hm

theorem agreePB_trans {B : Nat} {m1 m2 m3 : Nat → Option SAHeader}
    (h12 : agreePB B m1 m2) (h23 : agreePB B m2 m3) : agreePB B m1 m3 := by
  intro x hdr hx hm
  obtain ⟨hdr2, hm2, he1, he2⟩ := h12 x hdr hx hm
  obtain ⟨hdr3, hm3, hf1, hf2⟩ := h23 x hdr2 hx hm2
  exact ⟨hdr3, hm3, hf1.trans he1, hf2.trans he2⟩

/-- Every element of a live chain has a stored header within bounds whose
recorded `prev_offset` is strictly below the chain's offset level. -/
theorem chainL_elem {mem : Nat} {m : Nat → Option SAHeader}
    {hs : List Nat} {po o : Nat} (hc : ChainL mem m hs po o) :
    ∀ h' ∈ hs, ∃ hdr', m h' = some hdr' ∧ mem ≤ h' ∧
      h' + SAHeaderSize < mem + o ∧ hdr'.prev_offset < o := by
  induction hc with
  | nil o => intro h' hh; cases hh
  | cons h hs hdr po q o hm hpo hph hlow hhigh htail ih =>
    intro h' hh
    rcases List.mem_cons.mp hh with rfl | hmemb
    · exact ⟨hdr, hm, by omega, hhigh, by omega⟩
    · obtain ⟨hdr', h1, h2, h3, h4⟩ := ih h' hmemb
      exact ⟨hdr', h1, h2, by omega, by omega⟩

/-- A chain survives any change of the header map that preserves the
`prev` fields of everything stored below the chain's high end. -/
theorem chainL_transport {mem : Nat} {m1 m2 : Nat → Option SAHeader}
    {hs : List Nat} {po o : Nat} (hc : ChainL mem m1 hs po o) :
    agreePB (mem + o) m1 m2 → ChainL mem m2 hs po o := by
  induction hc with
  | nil o => intro _; exact ChainL.nil o
  | cons h hs hdr po q o hm hpo hph hlow hhigh htail ih =>
    intro hag
    obtain ⟨hdr2, hm2, he1, he2⟩ := hag h hdr (by omega) hm
    exact ChainL.cons h hs hdr2 po q o hm2 (he1.trans hpo) (he2.trans hph)
      hlow hhigh (ih (agreePB_mono hag (by omega)))

/-- The allocator `prev_offset` recorded by a chain is determined by the
header map and the list of live headers. -/
theorem chainL_po_det {mem : Nat} {m : Nat → Option SAHeader}
    {hs : List Nat} {po o po' o' : Nat} (h1 : ChainL mem m hs po o)
    (h2 : ChainL mem m hs po' o') : po = po' := by
  cases h1 with
  | nil _ =>
    cases h2 with
    | nil _ => rfl
  | cons h hs hdr po q o hm hpo _ _ _ _ =>
    cases h2 with
    | cons _ _ hdr2 _ q2 _ hm2 hpo2 _ _ _ _ =>
      rw [hm] at hm2
      injection hm2 with hh
      rw [← hpo, ← hpo2, hh]

/-- Unfolding equation for `Stack.alloc_aligned` in terms of `stackPad`. -/
theorem stack_alloc_aligned_eq (s : Stack) (sz al : Nat) :
    s.alloc_aligned sz al =
      if s.m_capacity < s.m_offset + sz + stackPad s al then some (0, s)
      else
        if s.m_prev_header = 0 then
          some (s.m_memory + s.m_offset + stackPad s al,
            { s with
              m_prev_offset := s.m_offset
              m_offset := s.m_offset + stackPad s al + sz
              m_prev_header := s.m_memory + s.m_offset + stackPad s al - SAHeaderSize
              headers := setHdr s.headers
                (s.m_memory + s.m_offset + stackPad s al - SAHeaderSize)
                ⟨stackPad s al % 256, s.m_offset, s.m_prev_header, 0⟩
              data := memsetZero s.data (s.m_memory + s.m_offset + stackPad s al) sz })
        else
          match setHdr s.headers
              (s.m_memory + s.m_offset + stackPad s al - SAHeaderSize)
              ⟨stackPad s al % 256, s.m_offset, s.m_prev_header, 0⟩
              s.m_prev_header with
          | none => none
          | some ph =>
            some (s.m_memory + s.m_offset + stackPad s al,
              { s with
                m_prev_offset := s.m_offset
                m_offset := s.m_offset + stackPad s al + sz
                m_prev_header := s.m_memory + s.m_offset + stackPad s al - SAHeaderSize
                headers := setHdr
                  (setHdr s.headers
                    (s.m_memory + s.m_offset + stackPad s al - SAHeaderSize)
                    ⟨stackPad s al % 256, s.m_offset, s.m_prev_header, 0⟩)
                  s.m_prev_header
                  { ph with next_header :=
                      s.m_memory + s.m_offset + stackPad s al - SAHeaderSize }
                data := memsetZero s.data (s.m_memory + s.m_offset + stackPad s al) sz }) :=
  rfl

/-- The clamped alignment is the power of two `2 ^ min k 63`. -/
theorem stack_clamp_eq {al k : Nat} (hal : al = 2 ^ k) :
    (if STACK_MAX_ALIGN < al then STACK_MAX_ALIGN else al) = 2 ^ min k 63 := by
  subst hal
  unfold STACK_MAX_ALIGN
  by_cases h : (2 : Nat) ^ 63 < 2 ^ k
  · rw [if_pos h]
    have hk : 63 < k := (Nat.pow_lt_pow_iff_right (by norm_num)).mp h
    rw [Nat.min_eq_right (by omega)]
  · rw [if_neg h]
    push_neg at h
    have hk : k ≤ 63 := (Nat.pow_le_pow_iff_right (by norm_num)).mp h
    rw [Nat.min_eq_left hk]

/-- `stackPad` rewritten through the clamp for power-of-two alignments. -/
theorem stackPad_eq {al k : Nat} (s : Stack) (hal : al = 2 ^ k) :
    stackPad s al = calc_padding_with_header (s.m_memory + s.m_offset)
      (2 ^ min k 63) SAHeaderSize := by
  unfold stackPad
  rw [stack_clamp_eq hal]

/-- Case analysis of a `Stack::alloc_aligned` call from a well-formed state
with positive size and power-of-two alignment: it either fails (full state
unchanged) or succeeds with the documented state update, preserving
well-formedness with the new header pushed onto the live chain. -/
theorem stack_alloc_spec (s : Stack) (hs : List Nat) (sz al k : Nat)
    (hg : GoodChainL s hs) (hsz : 0 < sz) (hal : al = 2 ^ k) :
    (s.m_capacity < s.m_offset + sz + stackPad s al ∧
      s.alloc_aligned sz al = some (0, s)) ∨
    (∃ s2,
      s.alloc_aligned sz al
        = some (s.m_memory + s.m_offset + stackPad s al, s2) ∧
      SAHeaderSize ≤ stackPad s al ∧
      s.m_offset + sz + stackPad s al ≤ s.m_capacity ∧
      s2.m_memory = s.m_memory ∧ s2.m_capacity = s.m_capacity ∧
      s2.m_offset = s.m_offset + stackPad s al + sz ∧
      s2.m_prev_offset = s.m_offset ∧
      s2.m_prev_header = s.m_memory + s.m_offset + stackPad s al - SAHeaderSize ∧
      s2.data = memsetZero s.data (s.m_memory + s.m_offset + stackPad s al) sz ∧
      s2.headers (s.m_memory + s.m_offset + stackPad s al - SAHeaderSize)
        = some ⟨stackPad s al % 256, s.m_offset, s.m_prev_header, 0⟩ ∧
      (∀ x, x ≠ s.m_memory + s.m_offset + stackPad s al - SAHeaderSize →
        x ≠ s.m_prev_header → s2.headers x = s.headers x) ∧
      (∀ ph, s.headers s.m_prev_header = some ph → s.m_prev_header ≠ 0 →
        s2.headers s.m_prev_header
          = some { ph with next_header :=
              s.m_memory + s.m_offset + stackPad s al - SAHeaderSize }) ∧
      GoodChainL s2
        ((s.m_memory + s.m_offset + stackPad s al - SAHeaderSize) :: hs) ∧
      agreePB (s.m_memory + s.m_offset) s.headers s2.headers) := by
  obtain ⟨hmem, hfit, hoc, hph, hchain⟩ := hg
  have hb : s.m_memory + s.m_offset < 2 ^ 64 := by omega
  have hspec := @calc_padding_spec (min k 63) (s.m_memory + s.m_offset)
    SAHeaderSize (Nat.min_le_right k 63) hb
  have hpadeq := stackPad_eq s hal
  have hpad32 : SAHeaderSize ≤ stackPad s al := by
    rw [hpadeq]; exact hspec.2.1
  set pad := stackPad s al with hpaddef
  set A := s.m_memory + s.m_offset + pad with hA
  set H := A - SAHeaderSize with hH
  have hHA : H + SAHeaderSize = A := by omega
  have hHlow : s.m_memory + s.m_offset ≤ H := by omega
  by_cases hcap : s.m_capacity < s.m_offset + sz + pad
  · left
    refine ⟨hcap, ?_⟩
    rw [stack_alloc_aligned_eq, if_pos hcap]
  · right
    push_neg at hcap
    -- the new header does not overwrite anything below `memory + offset`
    have hagree1 : ∀ hdr0 : SAHeader,
        agreePB (s.m_memory + s.m_offset) s.headers (setHdr s.headers H hdr0) := by
      intro hdr0 x hdr' hx hmx
      refine ⟨hdr', ?_, rfl, rfl⟩
      rw [setHdr_other _ _ _ _ (by omega)]
      exact hmx
    by_cases hp : s.m_prev_header = 0
    · -- no previous top header
      refine ⟨{ s with
          m_prev_offset := s.m_offset
          m_offset := s.m_offset + pad + sz
          m_prev_header := H
          headers := setHdr s.headers H ⟨pad % 256, s.m_offset, s.m_prev_header, 0⟩
          data := memsetZero s.data A sz },
        ?_, hpad32, by omega, rfl, rfl, rfl, rfl, rfl, rfl,
        setHdr_same _ _ _, ?_, ?_, ?_, hagree1 _⟩
      · rw [stack_alloc_aligned_eq, if_neg (by omega), if_pos hp]
      · intro x hx1 _
        exact setHdr_other _ _ _ _ hx1
      · intro ph _ hne
        exact absurd hp hne
      · have hcap2 : s.m_offset + pad + sz ≤ s.m_capacity := by omega
        have hch2 : ChainL s.m_memory
            (setHdr s.headers H ⟨pad % 256, s.m_offset, s.m_prev_header, 0⟩)
            (H :: hs) s.m_offset (s.m_offset + pad + sz) := by
          refine ChainL.cons H hs _ s.m_offset s.m_prev_offset _
            (setHdr_same _ _ _) rfl hph hHlow (by omega) ?_
          exact chainL_transport hchain (hagree1 _)
        exact ⟨hmem, hfit, hcap2, rfl, hch2⟩
    · -- a previous top header exists: `hs` is nonempty
      rcases hhs : hs with _ | ⟨h1, hs'⟩
      · rw [hhs] at hph
        exact absurd hph hp
      subst hhs
      rcases hchain with _ | ⟨_, _, hdr1, _, q1, _, hm1, hpo1, hph1, hlow1, hhigh1, htail1⟩
      have hph1' : s.m_prev_header = h1 := by rw [hph, List.headD_cons]
      have hne1 : s.m_prev_header ≠ H := by
        rw [hph1']; omega
      have hm1' : setHdr s.headers H
          ⟨pad % 256, s.m_offset, s.m_prev_header, 0⟩ s.m_prev_header
            = some hdr1 := by
        rw [setHdr_other _ _ _ _ hne1, hph1']
        exact hm1
      have hagree2 : agreePB (s.m_memory + s.m_offset) s.headers
          (setHdr (setHdr s.headers H ⟨pad % 256, s.m_offset, s.m_prev_header, 0⟩)
            s.m_prev_header { hdr1 with next_header := H }) := by
        intro x hdr' hx hmx
        by_cases hxh : x = s.m_prev_header
        · subst hxh
          rw [hph1'] at hmx
          rw [hm1] at hmx
          injection hmx with hmx
          refine ⟨{ hdr1 with next_header := H }, ?_, ?_, ?_⟩
          · exact setHdr_same _ _ _
          · rw [← hmx]
          · rw [← hmx]
        · refine ⟨hdr', ?_, rfl, rfl⟩
          rw [setHdr_other _ _ _ _ hxh, setHdr_other _ _ _ _ (by omega)]
          exact hmx
      refine ⟨{ s with
          m_prev_offset := s.m_offset
          m_offset := s.m_offset + pad + sz
          m_prev_header := H
          headers := setHdr
            (setHdr s.headers H ⟨pad % 256, s.m_offset, s.m_prev_header, 0⟩)
            s.m_prev_header { hdr1 with next_header := H }
          data := memsetZero s.data A sz },
        ?_, hpad32, by omega, rfl, rfl, rfl, rfl, rfl, rfl, ?_, ?_, ?_, ?_, hagree2⟩
      · rw [stack_alloc_aligned_eq, if_neg (by omega), if_neg hp, hm1']
      · show setHdr
            (setHdr s.headers H ⟨pad % 256, s.m_offset, s.m_prev_header, 0⟩)
            s.m_prev_header { hdr1 with next_header := H } H
          = some ⟨pad % 256, s.m_offset, s.m_prev_header, 0⟩
        rw [setHdr_other _ _ _ _ (Ne.symm hne1)]
        exact setHdr_same _ _ _
      · intro x hx1 hx2
        show setHdr
            (setHdr s.headers H ⟨pad % 256, s.m_offset, s.m_prev_header, 0⟩)
            s.m_prev_header { hdr1 with next_header := H } x
          = s.headers x
        rw [setHdr_other _ _ _ _ hx2, setHdr_other _ _ _ _ hx1]
      · intro ph hpm _
        rw [hph1'] at hpm
        rw [hm1] at hpm
        injection hpm with hpm
        show setHdr
            (setHdr s.headers H ⟨pad % 256, s.m_offset, s.m_prev_header, 0⟩)
            s.m_prev_header { hdr1 with next_header := H } s.m_prev_header
          = some { ph with next_header := H }
        rw [← hpm]
        exact setHdr_same _ _ _
      · have hcap2 : s.m_offset + pad + sz ≤ s.m_capacity := by omega
        have hch2 : ChainL s.m_memory
            (setHdr (setHdr s.headers H ⟨pad % 256, s.m_offset, s.m_prev_header, 0⟩)
              s.m_prev_header { hdr1 with next_header := H })
            (H :: h1 :: hs') s.m_offset (s.m_offset + pad + sz) := by
          refine ChainL.cons H (h1 :: hs')
            ⟨pad % 256, s.m_offset, s.m_prev_header, 0⟩
            s.m_offset s.m_prev_offset _ ?_ rfl hph hHlow (by omega) ?_
          · rw [setHdr_other _ _ _ _ (Ne.symm hne1)]
            exact setHdr_same _ _ _
          · refine chainL_transport ?_ hagree2
            exact ChainL.cons h1 hs' hdr1 s.m_prev_offset q1 s.m_offset
              hm1 hpo1 hph1 hlow1 hhigh1 htail1
        exact ⟨hmem, hfit, hcap2, rfl, hch2⟩

/-- Freeing a live non-top allocation returns `false` and leaves the state
(offsets, top pointer, headers, data — the whole record) unchanged. -/
theorem stack_free_nontop_spec (s : Stack) (h0 : Nat) (rest : List Nat)
    (hg : GoodChainL s (h0 :: rest)) (h' : Nat) (hmemb : h' ∈ rest) :
    s.free (h' + SAHeaderSize) = some (false, s) := by
  obtain ⟨hmem, hfit, hoc, hph, hchain⟩ := hg
  rcases hchain with _ | ⟨_, _, hdr0, _, q, _, hm0, hpo0, hph0, hlow0, hhigh0, htail⟩
  obtain ⟨hdr', hm', hlo', hhi', hpo'⟩ := chainL_elem htail h' hmemb
  unfold Stack.free
  rw [if_neg (by omega : ¬ h' + SAHeaderSize = 0),
      if_neg (by omega : ¬ (h' + SAHeaderSize < s.m_memory ∨
        s.m_memory + s.m_capacity < h' + SAHeaderSize)),
      if_neg (by omega : ¬ s.m_memory + s.m_offset ≤ h' + SAHeaderSize),
      Nat.add_sub_cancel, hm']
  dsimp only
  rw [if_pos (by omega : s.m_prev_offset ≠ hdr'.prev_offset)]

/-- Freeing the top allocation succeeds and pops the chain: the offset is
restored to the allocator's `prev_offset`, and the allocator's
`prev_offset` / `prev_header` are reloaded from the next header down. -/
theorem stack_free_top_spec (s : Stack) (h0 : Nat) (rest : List Nat)
    (hg : GoodChainL s (h0 :: rest)) :
    ∃ q, ChainL s.m_memory s.headers rest q s.m_prev_offset ∧
      s.free (h0 + SAHeaderSize) = some (true,
        { s with
          m_offset := s.m_prev_offset
          m_prev_offset := q
          m_prev_header := rest.headD 0 }) ∧
      GoodChainL
        { s with
          m_offset := s.m_prev_offset
          m_prev_offset := q
          m_prev_header := rest.headD 0 } rest := by
  obtain ⟨hmem, hfit, hoc, hph, hchain⟩ := hg
  rcases hchain with _ | ⟨_, _, hdr0, _, q, _, hm0, hpo0, hph0, hlow0, hhigh0, htail⟩
  have hfree0 : s.free (h0 + SAHeaderSize) =
      (if hdr0.prev_header = 0 then
        some (true,
          { s with
            m_offset := s.m_prev_offset
            m_prev_offset := 0
            m_prev_header := 0 })
      else
        match s.headers hdr0.prev_header with
        | none => none
        | some ph =>
          some (true,
            { s with
              m_offset := s.m_prev_offset
              m_prev_offset := ph.prev_offset
              m_prev_header := hdr0.prev_header })) := by
    unfold Stack.free
    rw [if_neg (by omega : ¬ h0 + SAHeaderSize = 0),
        if_neg (by omega : ¬ (h0 + SAHeaderSize < s.m_memory ∨
          s.m_memory + s.m_capacity < h0 + SAHeaderSize)),
        if_neg (by omega : ¬ s.m_memory + s.m_offset ≤ h0 + SAHeaderSize),
        Nat.add_sub_cancel, hm0]
    dsimp only
    rw [if_neg (show ¬ s.m_prev_offset ≠ hdr0.prev_offset from
      fun hne => hne hpo0.symm)]
  rcases rest with _ | ⟨h1, rest'⟩
  · -- freeing the only live allocation
    cases htail
    refine ⟨0, ChainL.nil _, ?_, ?_⟩
    · rw [hfree0, if_pos (show hdr0.prev_header = 0 by rw [hph0]; rfl)]
      rfl
    · exact ⟨hmem, hfit, show s.m_prev_offset ≤ s.m_capacity by omega, rfl,
        ChainL.nil _⟩
  · -- a deeper allocation remains
    have hph0' : hdr0.prev_header = h1 := by rw [hph0, List.headD_cons]
    rcases htail with _ | ⟨_, _, hdr1, _, q1, _, hm1, hpo1, hph1, hlow1, hhigh1, htail1⟩
    refine ⟨q, ?_, ?_, ?_⟩
    · exact ChainL.cons h1 rest' hdr1 q q1 s.m_prev_offset
        hm1 hpo1 hph1 hlow1 hhigh1 htail1
    · rw [hfree0, if_neg (by omega : ¬ hdr0.prev_header = 0), hph0', hm1]
      dsimp only
      rw [hpo1, List.headD_cons]
    · refine ⟨hmem, hfit, show s.m_prev_offset ≤ s.m_capacity by omega, ?_, ?_⟩
      · show (h1 :: rest').headD 0 = (h1 :: rest').headD 0
        rfl
      · show ChainL s.m_memory s.headers (h1 :: rest') q s.m_prev_offset
        exact ChainL.cons h1 rest' hdr1 q q1 s.m_prev_offset
          hm1 hpo1 hph1 hlow1 hhigh1 htail1

/-- Unfolding equation for `runAllocs` on a cons. -/
theorem runAllocs_cons (s : Stack) (sz al : Nat) (rest : List (Nat × Nat)) :
    runAllocs s ((sz, al) :: rest) =
      match s.alloc_aligned sz al with
      | none => none
      | some (a, s') =>
        match runAllocs s' rest with
        | none => none
        | some (sf, acc) => some (sf, if a = 0 then acc else a :: acc) := rfl

/-- Unfolding equations for `runFrees`. -/
theorem runFrees_nil (s : Stack) : runFrees s [] = some (true, s) := rfl

theorem runFrees_cons (s : Stack) (a : Nat) (t : List Nat) :
    runFrees s (a :: t) =
      match s.free a with
      | none => none
      | some (ok, s') =>
        match runFrees s' t with
        | none => none
        | some (allok, sf) => some (ok && allok, sf) := rfl

/-- `runFrees` distributes over list append. -/
theorem runFrees_append (l1 l2 : List Nat) : ∀ s : Stack,
    runFrees s (l1 ++ l2) =
      match runFrees s l1 with
      | none => none
      | some (b1, s1) =>
        match runFrees s1 l2 with
        | none => none
        | some (b2, s2) => some (b1 && b2, s2) := by
  induction l1 with
  | nil =>
    intro s
    rw [List.nil_append, runFrees_nil]
    dsimp only
    cases hr : runFrees s l2 with
    | none => rfl
    | some p =>
      rcases p with ⟨b2, s2⟩
      rfl
  | cons a t ih =>
    intro s
    rw [List.cons_append, runFrees_cons, runFrees_cons]
    cases hf : s.free a with
    | none => rfl
    | some p =>
      rcases p with ⟨ok, s'⟩
      dsimp only
      rw [ih s']
      cases h1 : runFrees s' t with
      | none => rfl
      | some p1 =>
        rcases p1 with ⟨b1, s1⟩
        dsimp only
        cases h2 : runFrees s1 l2 with
        | none => rfl
        | some p2 =>
          rcases p2 with ⟨b2, s2⟩
          show some (ok && (b1 && b2), s2) = some ((ok && b1) && b2, s2)
          rw [Bool.and_assoc]

/-- The LIFO drain: from any well-formed Stack state, running a list of
positive-size power-of-two-aligned allocation requests and then freeing
every collected address in LIFO order succeeds (every free returns true)
and restores `m_offset`, `m_prev_offset` and `m_prev_header` exactly. -/
theorem stack_drain (reqs : List (Nat × Nat)) :
    ∀ (s : Stack) (hs : List Nat), GoodChainL s hs →
    (∀ r ∈ reqs, 0 < (r : Nat × Nat).1 ∧ ∃ k, r.2 = 2 ^ k) →
    ∃ sf as sd, runAllocs s reqs = some (sf, as) ∧
      runFrees sf as.reverse = some (true, sd) ∧
      sd.m_memory = s.m_memory ∧ sd.m_capacity = s.m_capacity ∧
      sd.m_offset = s.m_offset ∧ sd.m_prev_offset = s.m_prev_offset ∧
      sd.m_prev_header = s.m_prev_header ∧
      GoodChainL sd hs ∧
      agreePB (s.m_memory + s.m_offset) s.headers sd.headers := by
  induction reqs with
  | nil =>
    intro s hs hg hr
    exact ⟨s, [], s, rfl, rfl, rfl, rfl, rfl, rfl, rfl, hg, agreePB_refl _ _⟩
  | cons r rest ih =>
    intro s hs hg hr
    obtain ⟨sz, al⟩ := r
    obtain ⟨hszpos, k, hk⟩ := hr (sz, al) (List.mem_cons_self _ _)
    have hrest : ∀ r ∈ rest, 0 < (r : Nat × Nat).1 ∧ ∃ k, r.2 = 2 ^ k :=
      fun r hr' => hr r (List.mem_cons_of_mem _ hr')
    rcases stack_alloc_spec s hs sz al k hg hszpos hk with ⟨hcap, heq⟩ |
      ⟨s2, heq, hpad32, hcap, hm2mem, hm2cap, hm2off, hm2po, hm2ph, hm2data,
        hm2H, hm2other, hm2prev, hg2, hag2⟩
    · -- failed allocation: state unchanged, address not collected
      obtain ⟨sf, as, sd, hrun, hfr, e1, e2, e3, e4, e5, hg', hag⟩ :=
        ih s hs hg hrest
      refine ⟨sf, as, sd, ?_, hfr, e1, e2, e3, e4, e5, hg', hag⟩
      rw [runAllocs_cons, heq]
      dsimp only
      rw [hrun]
      rfl
    · -- successful allocation
      have hmem : 0 < s.m_memory := hg.1
      obtain ⟨sf, as, sd1, hrun, hfr, f1, f2, f3, f4, f5, hg1, hag1⟩ :=
        ih s2 _ hg2 hrest
      set pad := stackPad s al with hpaddef
      set A := s.m_memory + s.m_offset + pad with hA
      set H := A - SAHeaderSize with hH
      have hAne : A ≠ 0 := by omega
      have hAH : A = H + SAHeaderSize := by omega
      -- the chain of `s` survives into `sd1`'s header map
      have hag1' : agreePB (s.m_memory + s.m_offset) s2.headers sd1.headers :=
        agreePB_mono hag1 (by rw [hm2mem, hm2off]; omega)
      have hagS : agreePB (s.m_memory + s.m_offset) s.headers sd1.headers :=
        agreePB_trans hag2 hag1'
      have hchain_sd1 : ChainL s.m_memory sd1.headers hs s.m_prev_offset
          s.m_offset := chainL_transport hg.2.2.2.2 hagS
      obtain ⟨q, hqchain, hfree, hg'⟩ := stack_free_top_spec sd1 H hs hg1
      have hqeq : q = s.m_prev_offset := by
        rw [f1, hm2mem] at hqchain
        exact chainL_po_det hqchain hchain_sd1
      refine ⟨sf, A :: as,
        { sd1 with
          m_offset := sd1.m_prev_offset
          m_prev_offset := q
          m_prev_header := hs.headD 0 }, ?_, ?_, ?_, ?_, ?_, ?_, ?_, ?_, ?_⟩
      · rw [runAllocs_cons, heq]
        dsimp only
        rw [hrun]
        dsimp only
        rw [if_neg hAne]
      · rw [List.reverse_cons, runFrees_append, hfr]
        dsimp only
        show (match runFrees sd1 [A] with
          | none => none
          | some (b2, s2) => some (true && b2, s2)) = _
        rw [hAH]
        show (match
            (match sd1.free (H + SAHeaderSize) with
             | none => none
             | some (ok, s') =>
               match (some (true, s') : Option (Bool × Stack)) with
               | none => none
               | some (allok, sf') => some (ok && allok, sf')) with
          | none => none
          | some (b2, s2) => some (true && b2, s2)) = _
        rw [hfree]
        rfl
      · show sd1.m_memory = s.m_memory
        rw [f1, hm2mem]
      · show sd1.m_capacity = s.m_capacity
        rw [f2, hm2cap]
      · show sd1.m_prev_offset = s.m_offset
        rw [f4, hm2po]
      · show q = s.m_prev_offset
        exact hqeq
      · show hs.headD 0 = s.m_prev_header
        exact hg.2.2.2.1.symm
      · exact hg'
      · show agreePB (s.m_memory + s.m_offset) s.headers sd1.headers
        exact hagS

/-- Claim C2, amended (positive allocation sizes): free of a live non-top
allocation returns `false` and changes nothing; free of the top allocation
returns `true`; and from a fresh Stack, pairing every successful positive
`alloc_aligned` with a `free` in LIFO order ends with `offset = 0`,
`prev_offset = 0`, `prev_header = null`, every free returning `true`. -/
theorem c2_stack_lifo_amended :
    (∀ (s : Stack) (h0 h' : Nat) (rest : List Nat),
      GoodChainL s (h0 :: rest) → h' ∈ rest →
      s.free (h' + SAHeaderSize) = some (false, s)) ∧
    (∀ (s : Stack) (h0 : Nat) (rest : List Nat),
      GoodChainL s (h0 :: rest) →
      ∃ s', s.free (h0 + SAHeaderSize) = some (true, s')) ∧
    (∀ (mem cap : Nat) (d : Nat → Nat) (reqs : List (Nat × Nat)),
      0 < mem → mem + cap < 2 ^ 64 →
      (∀ r ∈ reqs, 0 < (r : Nat × Nat).1 ∧ ∃ k, r.2 = 2 ^ k) →
      ∃ sf as sd, runAllocs (Stack.fresh mem cap d) reqs = some (sf, as) ∧
        runFrees sf as.reverse = some (true, sd) ∧
        sd.m_offset = 0 ∧ sd.m_prev_offset = 0 ∧ sd.m_prev_header = 0) := by
  refine ⟨?_, ?_, ?_⟩
  · intro s h0 h' rest hg hmemb
    exact stack_free_nontop_spec s h0 rest hg h' hmemb
  · intro s h0 rest hg
    obtain ⟨q, _, hfree, _⟩ := stack_free_top_spec s h0 rest hg
    exact ⟨_, hfree⟩
  · intro mem cap d reqs hm hf hr
    have hg : GoodChainL (Stack.fresh mem cap d) [] :=
      ⟨hm, hf, Nat.zero_le _, rfl, ChainL.nil _⟩
    obtain ⟨sf, as, sd, h1, h2, _, _, e3, e4, e5, _, _⟩ :=
      stack_drain reqs (Stack.fresh mem cap d) [] hg hr
    exact ⟨sf, as, sd, h1, h2, e3, e4, e5⟩

theorem stackTwoLive_good : GoodChainL stackTwoLive [104, 64] := by
  refine ⟨by decide, by decide, by decide, rfl, ?_⟩
  refine ChainL.cons 104 [64] ⟨32, 40, 64, 0⟩ 40 0 80
    rfl rfl rfl (by decide) (by decide) ?_
  exact ChainL.cons 64 [] ⟨32, 0, 0, 104⟩ 0 0 40
    rfl rfl rfl (by decide) (by decide) (ChainL.nil 0)

/-- Witness for the amended C2 at concrete inputs. -/
theorem c2_stack_lifo_amended_witness :
    stackTwoLive.free (64 + SAHeaderSize) = some (false, stackTwoLive) ∧
    (∃ s', stackTwoLive.free (104 + SAHeaderSize) = some (true, s')) ∧
    (∃ sf as sd,
      runAllocs (Stack.fresh 64 512 (fun _ => 0)) [(8, 8)] = some (sf, as) ∧
      runFrees sf as.reverse = some (true, sd) ∧
      sd.m_offset = 0 ∧ sd.m_prev_offset = 0 ∧ sd.m_prev_header = 0) :=
  ⟨c2_stack_lifo_amended.1 stackTwoLive 104 64 [64] stackTwoLive_good
      (List.mem_cons_self 64 []),
   c2_stack_lifo_amended.2.1 stackTwoLive 104 [64] stackTwoLive_good,
   c2_stack_lifo_amended.2.2 64 512 (fun _ => 0) [(8, 8)] (by norm_num)
      (by norm_num)
      (by
        intro r hr
        simp only [List.mem_singleton] at hr
        subst hr
        exact ⟨by norm_num, 3, rfl⟩)⟩

/-- Claim C1: every successful `Arena::alloc_aligned(bytes, align)` and
`Stack::alloc_aligned(size, align)` with positive size and power-of-two
alignment (for the Stack, within the supported maximum `2^63`) returns an
address that is a multiple of the alignment, with the returned region
entirely inside `[memory, memory + capacity)` and zero-filled. -/
theorem c1_alloc_aligned_aligned_in_bounds_zeroed :
    (∀ (a : Arena) (bytes k : Nat), k ≤ 63 → 0 < a.m_memory →
      a.m_memory + a.m_offset < 2 ^ 64 → 0 < bytes →
      (a.alloc_aligned bytes (2 ^ k)).1 ≠ 0 →
      ((a.alloc_aligned bytes (2 ^ k)).1 % 2 ^ k = 0 ∧
       a.m_memory ≤ (a.alloc_aligned bytes (2 ^ k)).1 ∧
       (a.alloc_aligned bytes (2 ^ k)).1 + bytes ≤ a.m_memory + a.m_capacity ∧
       ∀ x, (a.alloc_aligned bytes (2 ^ k)).1 ≤ x →
         x < (a.alloc_aligned bytes (2 ^ k)).1 + bytes →
         (a.alloc_aligned bytes (2 ^ k)).2.m_data x = 0)) ∧
    (∀ (s : Stack) (sz k addr : Nat) (s' : Stack), k ≤ 63 →
      s.m_memory + s.m_offset < 2 ^ 64 → 0 < sz →
      s.alloc_aligned sz (2 ^ k) = some (addr, s') → addr ≠ 0 →
      (addr % 2 ^ k = 0 ∧
       s.m_memory ≤ addr ∧ addr + sz ≤ s.m_memory + s.m_capacity ∧
       ∀ x, addr ≤ x → x < addr + sz → s'.data x = 0)) := by
  constructor
  · intro a bytes k hk hmem har hb hsucc
    exact arena_alloc_props a bytes k hk hmem har hb hsucc
  · intro s sz k addr s' hk har hsz heq hne
    have hspec := @calc_padding_spec k (s.m_memory + s.m_offset)
      SAHeaderSize hk har
    have hpadeq : stackPad s (2 ^ k) = calc_padding_with_header
        (s.m_memory + s.m_offset) (2 ^ k) SAHeaderSize := by
      rw [stackPad_eq s rfl, Nat.min_eq_left hk]
    rw [stack_alloc_aligned_eq] at heq
    by_cases hcap : s.m_capacity < s.m_offset + sz + stackPad s (2 ^ k)
    · rw [if_pos hcap] at heq
      injection heq with heq'
      exact absurd (congrArg Prod.fst heq').symm hne
    · rw [if_neg hcap] at heq
      push_neg at hcap
      by_cases hp : s.m_prev_header = 0
      · rw [if_pos hp] at heq
        injection heq with heq'
        have haddr : addr = s.m_memory + s.m_offset + stackPad s (2 ^ k) :=
          (congrArg Prod.fst heq').symm
        have hs' : s' = _ := (congrArg Prod.snd heq').symm
        subst haddr
        refine ⟨?_, by omega, by omega, ?_⟩
        · rw [hpadeq]
          exact hspec.1
        · intro x hx1 hx2
          rw [hs']
          show memsetZero s.data _ sz x = 0
          unfold memsetZero
          rw [if_pos ⟨hx1, hx2⟩]
      · rw [if_neg hp] at heq
        cases hsc : setHdr s.headers
            (s.m_memory + s.m_offset + stackPad s (2 ^ k) - SAHeaderSize)
            ⟨stackPad s (2 ^ k) % 256, s.m_offset, s.m_prev_header, 0⟩
            s.m_prev_header with
        | none =>
          rw [hsc] at heq
          exact absurd heq (by simp)
        | some ph =>
          rw [hsc] at heq
          dsimp only at heq
          injection heq with heq'
          have haddr : addr = s.m_memory + s.m_offset + stackPad s (2 ^ k) :=
            (congrArg Prod.fst heq').symm
          have hs' : s' = _ := (congrArg Prod.snd heq').symm
          subst haddr
          refine ⟨?_, by omega, by omega, ?_⟩
          · rw [hpadeq]
            exact hspec.1
          · intro x hx1 hx2
            rw [hs']
            show memsetZero s.data _ sz x = 0
            unfold memsetZero
            rw [if_pos ⟨hx1, hx2⟩]

/-- Witness for C1: a concrete Arena allocation and a concrete Stack
allocation, both aligned. -/
theorem c1_alloc_aligned_aligned_in_bounds_zeroed_witness :
    ((⟨64, 0, 0, 16, fun _ => 1⟩ : Arena).alloc_aligned 4 (2 ^ 2)).1 % 2 ^ 2 = 0 ∧
    (96 : Nat) % 2 ^ 3 = 0 :=
  ⟨(c1_alloc_aligned_aligned_in_bounds_zeroed.1 ⟨64, 0, 0, 16, fun _ => 1⟩ 4 2
      (by norm_num) (by norm_num) (by norm_num) (by norm_num) (by decide)).1,
   (c1_alloc_aligned_aligned_in_bounds_zeroed.2 (Stack.fresh 64 256 (fun _ => 1))
      8 3 96 _ (by norm_num) (by decide) (by norm_num) rfl (by norm_num)).1⟩

/-- Partial-evaluation lemma for `Stack.free` at an in-range address whose
header is stored. -/
theorem stack_free_eq_of_header (s : Stack) (a : Nat) (hdr : SAHeader)
    (ha0 : a ≠ 0)
    (hlo : s.m_memory ≤ a) (hhi : a ≤ s.m_memory + s.m_capacity)
    (hoff : a < s.m_memory + s.m_offset)
    (hm : s.headers (a - SAHeaderSize) = some hdr) :
    s.free a =
      if s.m_prev_offset ≠ hdr.prev_offset then some (false, s)
      else if hdr.prev_header = 0 then
        some (true,
          { s with
            m_offset := s.m_prev_offset
            m_prev_offset := 0
            m_prev_header := 0 })
      else
        match s.headers hdr.prev_header with
        | none => none
        | some ph =>
          some (true,
            { s with
              m_offset := s.m_prev_offset
              m_prev_offset := ph.prev_offset
              m_prev_header := hdr.prev_header }) := by
  unfold Stack.free
  rw [if_neg ha0, if_neg (by omega), if_neg (by omega), hm]

/-- Claim C4: from any well-formed nonempty Stack state, allocate a middle
block B and a top block C (positive sizes, power-of-two alignments); if a
non-top `resize_aligned` of B succeeds (returning a fresh non-null
address d), then: freeing B's old address returns false and changes
nothing; a second `resize_aligned` of B's old address returns null with
the state unchanged (detected via the header's two nulled links); and
freeing d and then the next-above live allocation C restores `offset` to
the value it held just before B was allocated. -/
theorem c4_retired_middle_block
    (s1 : Stack) (hA : Nat) (hs0 : List Nat)
    (szB alB kB szC alC kC nsz al kR nsz2 al2 : Nat)
    (b c d : Nat) (s2 s3 s4 : Stack)
    (hg1 : GoodChainL s1 (hA :: hs0))
    (hB : 0 < szB) (hkB : alB = 2 ^ kB)
    (hC : 0 < szC) (hkC : alC = 2 ^ kC)
    (hN : 0 < nsz) (hkR : al = 2 ^ kR)
    (hN2 : 0 < nsz2)
    (heqB : s1.alloc_aligned szB alB = some (b, s2)) (hbne : b ≠ 0)
    (heqC : s2.alloc_aligned szC alC = some (c, s3)) (hcne : c ≠ 0)
    (heqR : s3.resize_aligned b szB nsz al = some (d, s4)) (hdne : d ≠ 0) :
    s4.free b = some (false, s4) ∧
    s4.resize_aligned b szB nsz2 al2 = some (0, s4) ∧
    s4.headers (b - SAHeaderSize)
      = some ⟨stackPad s1 alB % 256, s1.m_offset, 0, 0⟩ ∧
    ∃ s5 s6, s4.free d = some (true, s5) ∧ s5.free c = some (true, s6) ∧
      s6.m_offset = s1.m_offset ∧ s6.m_prev_offset = s1.m_prev_offset ∧
      s6.m_prev_header = hA := by
  have hmem1 : 0 < s1.m_memory := hg1.1
  have hfit1 : s1.m_memory + s1.m_capacity < 2 ^ 64 := hg1.2.1
  have hoc1 : s1.m_offset ≤ s1.m_capacity := hg1.2.2.1
  have hphA : s1.m_prev_header = hA := by
    have h := hg1.2.2.2.1
    rwa [List.headD_cons] at h
  have hchainA := hg1.2.2.2.2
  rcases hchainA with _ | ⟨_, _, hdrA, _, qA, _, hmA, hpoA, hphA2, hlowA, hhighA, htailA⟩
  -- Step B: allocate the middle block
  rcases stack_alloc_spec s1 (hA :: hs0) szB alB kB hg1 hB hkB with ⟨hcapB, heq2⟩ |
    ⟨s2', heq2, hpadB32, hcapB, hmem2, hcap2, hoff2, hpo2, hph2, hdata2, hH2,
      hother2, hprev2, hg2, hag2⟩
  · rw [heq2] at heqB
    injection heqB with h1
    exact absurd (congrArg Prod.fst h1).symm hbne
  rw [heq2] at heqB
  injection heqB with h1
  rw [Prod.mk.injEq] at h1
  obtain ⟨hbv, hs2v⟩ := h1
  have hs2v' : s2 = s2' := hs2v.symm
  subst hs2v'
  subst hbv
  set padB := stackPad s1 alB with hpadBdef
  set HB := s1.m_memory + s1.m_offset + padB - SAHeaderSize with hHBdef
  -- Step C: allocate the top block
  rcases stack_alloc_spec s2 (HB :: hA :: hs0) szC alC kC hg2 hC hkC with ⟨hcapC, heq3⟩ |
    ⟨s3', heq3, hpadC32, hcapC, hmem3, hcap3, hoff3, hpo3, hph3, hdata3, hH3,
      hother3, hprev3, hg3, hag3⟩
  · rw [heq3] at heqC
    injection heqC with h1
    exact absurd (congrArg Prod.fst h1).symm hcne
  rw [heq3] at heqC
  injection heqC with h1
  rw [Prod.mk.injEq] at h1
  obtain ⟨hcv, hs3v⟩ := h1
  have hs3v' : s3 = s3' := hs3v.symm
  subst hs3v'
  subst hcv
  set padC := stackPad s2 alC with hpadCdef
  set HC := s2.m_memory + s2.m_offset + padC - SAHeaderSize with hHCdef
  -- stored headers before the resize
  have hHB_s2 : s2.headers HB = some ⟨padB % 256, s1.m_offset, hA, 0⟩ := by
    rw [← hphA]
    exact hH2
  have hHBne0 : HB ≠ 0 := by omega
  have hHB_s3 : s3.headers HB = some ⟨padB % 256, s1.m_offset, hA, HC⟩ := by
    have h := hprev3 ⟨padB % 256, s1.m_offset, hA, 0⟩
      (by rw [hph2]; exact hHB_s2) (by rw [hph2]; exact hHBne0)
    rw [hph2] at h
    exact h
  have hA_s2 : s2.headers hA
      = some ⟨hdrA.padding, hdrA.prev_offset, hdrA.prev_header, HB⟩ := by
    have h := hprev2 hdrA (by rw [hphA]; exact hmA) (by rw [hphA]; omega)
    rw [hphA] at h
    exact h
  have hA_s3 : s3.headers hA
      = some ⟨hdrA.padding, hdrA.prev_offset, hdrA.prev_header, HB⟩ := by
    rw [hother3 hA (by omega) (by rw [hph2]; omega)]
    exact hA_s2
  have hHC_s3 : s3.headers HC = some ⟨padC % 256, s2.m_offset, HB, 0⟩ := by
    rw [← hph2]
    exact hH3
  -- unfold the non-top resize
  unfold Stack.resize_aligned at heqR
  rw [if_neg hbne, if_neg (by omega : ¬ nsz = 0),
    if_neg (by omega : ¬ (s1.m_memory + s1.m_offset + padB < s3.m_memory ∨
      s3.m_memory + s3.m_capacity < s1.m_memory + s1.m_offset + padB)),
    if_neg (by omega : ¬ s3.m_memory + s3.m_offset ≤
      s1.m_memory + s1.m_offset + padB),
    ← hHBdef, hHB_s3] at heqR
  dsimp only at heqR
  rw [if_neg (show ¬ HB = s3.m_prev_header by rw [hph3]; omega),
    if_neg (show ¬ (hA = 0 ∧ HC = 0) by omega)] at heqR
  -- the internal bump allocation must have succeeded
  rcases stack_alloc_spec s3 (HC :: HB :: hA :: hs0) nsz al kR hg3 hN hkR with
    ⟨hcapD, heq4⟩ |
    ⟨s4', heq4, hpadD32, hcapD, hmem4, hcap4, hoff4, hpo4, hph4, hdata4, hH4,
      hother4, hprev4, hg4, hag4⟩
  · rw [heq4] at heqR
    dsimp only at heqR
    rw [if_pos rfl] at heqR
    exact absurd heqR (by simp)
  set padD := stackPad s3 al with hpadDdef
  set HD := s3.m_memory + s3.m_offset + padD - SAHeaderSize with hHDdef
  rw [heq4] at heqR
  dsimp only at heqR
  rw [if_neg (show ¬ s3.m_memory + s3.m_offset + padD = 0 by omega)] at heqR
  have hHB_s4' : s4'.headers HB = some ⟨padB % 256, s1.m_offset, hA, HC⟩ := by
    rw [hother4 HB (by omega) (by rw [hph3]; omega)]
    exact hHB_s3
  rw [hHB_s4'] at heqR
  dsimp only at heqR
  rw [if_neg (show ¬ HC = 0 by omega)] at heqR
  have hHC_s4' : s4'.headers HC = some ⟨padC % 256, s2.m_offset, HB, HD⟩ := by
    have h := hprev4 ⟨padC % 256, s2.m_offset, HB, 0⟩
      (by rw [hph3]; exact hHC_s3) (by rw [hph3]; omega)
    rw [hph3] at h
    exact h
  rw [hHC_s4'] at heqR
  dsimp only at heqR
  rw [if_neg (show ¬ hA = 0 by omega)] at heqR
  have hA_s4' : s4'.headers hA
      = some ⟨hdrA.padding, hdrA.prev_offset, hdrA.prev_header, HB⟩ := by
    rw [hother4 hA (by omega) (by rw [hph3]; omega)]
    exact hA_s3
  have hm1A : setHdr s4'.headers HC
      ⟨padC % 256 + padB % 256, s1.m_offset, hA, HD⟩ hA
      = some ⟨hdrA.padding, hdrA.prev_offset, hdrA.prev_header, HB⟩ := by
    rw [setHdr_other _ _ _ _ (by omega)]
    exact hA_s4'
  rw [hm1A] at heqR
  dsimp only at heqR
  injection heqR with h1
  rw [Prod.mk.injEq] at h1
  obtain ⟨hdv, hs4v⟩ := h1
  subst hdv
  -- facts about the final state
  have g_mem : s4.m_memory = s3.m_memory := by rw [← hs4v]; exact hmem4
  have g_cap : s4.m_capacity = s3.m_capacity := by rw [← hs4v]; exact hcap4
  have g_off : s4.m_offset = s3.m_offset + padD + nsz := by
    rw [← hs4v]; exact hoff4
  have g_po : s4.m_prev_offset = s3.m_offset := by rw [← hs4v]; exact hpo4
  have g_ph : s4.m_prev_header = HD := by rw [← hs4v]; exact hph4
  have g_hHB : s4.headers HB = some ⟨padB % 256, s1.m_offset, 0, 0⟩ := by
    rw [← hs4v]
    exact setHdr_same _ _ _
  have g_hHC : s4.headers HC
      = some ⟨padC % 256 + padB % 256, s1.m_offset, hA, HD⟩ := by
    rw [← hs4v]
    show setHdr (setHdr (setHdr s4'.headers HC
        ⟨padC % 256 + padB % 256, s1.m_offset, hA, HD⟩) hA
        ⟨hdrA.padding, hdrA.prev_offset, hdrA.prev_header, HC⟩) HB
        ⟨padB % 256, s1.m_offset, 0, 0⟩ HC = _
    rw [setHdr_other _ _ _ _ (by omega), setHdr_other _ _ _ _ (by omega)]
    exact setHdr_same _ _ _
  have g_hA : s4.headers hA
      = some ⟨hdrA.padding, hdrA.prev_offset, hdrA.prev_header, HC⟩ := by
    rw [← hs4v]
    show setHdr (setHdr (setHdr s4'.headers HC
        ⟨padC % 256 + padB % 256, s1.m_offset, hA, HD⟩) hA
        ⟨hdrA.padding, hdrA.prev_offset, hdrA.prev_header, HC⟩) HB
        ⟨padB % 256, s1.m_offset, 0, 0⟩ hA = _
    rw [setHdr_other _ _ _ _ (by omega)]
    exact setHdr_same _ _ _
  have g_hHD : s4.headers HD = some ⟨padD % 256, s3.m_offset, HC, 0⟩ := by
    rw [← hs4v]
    show setHdr (setHdr (setHdr s4'.headers HC
        ⟨padC % 256 + padB % 256, s1.m_offset, hA, HD⟩) hA
        ⟨hdrA.padding, hdrA.prev_offset, hdrA.prev_header, HC⟩) HB
        ⟨padB % 256, s1.m_offset, 0, 0⟩ HD = _
    rw [setHdr_other _ _ _ _ (by omega), setHdr_other _ _ _ _ (by omega),
      setHdr_other _ _ _ _ (by omega), hH4, hph3]
  refine ⟨?_, ?_, ?_, ?_⟩
  · -- freeing the retired address fails and changes nothing
    rw [stack_free_eq_of_header s4 _ ⟨padB % 256, s1.m_offset, 0, 0⟩ hbne
      (by omega) (by omega) (by omega) g_hHB]
    dsimp only
    rw [if_pos (by omega : s4.m_prev_offset ≠ s1.m_offset)]
  · -- resizing the retired address again is rejected, state unchanged
    unfold Stack.resize_aligned
    rw [if_neg hbne, if_neg (by omega : ¬ nsz2 = 0),
      if_neg (by omega : ¬ (s1.m_memory + s1.m_offset + padB < s4.m_memory ∨
        s4.m_memory + s4.m_capacity < s1.m_memory + s1.m_offset + padB)),
      if_neg (by omega : ¬ s4.m_memory + s4.m_offset ≤
        s1.m_memory + s1.m_offset + padB),
      ← hHBdef, g_hHB]
    dsimp only
    rw [if_neg (show ¬ HB = s4.m_prev_header by rw [g_ph]; omega),
      if_pos ⟨rfl, rfl⟩]
  · exact g_hHB
  · -- freeing d and then c restores the pre-B offset
    have hfree_d : s4.free (s3.m_memory + s3.m_offset + padD)
        = some (true, { s4 with
            m_offset := s4.m_prev_offset
            m_prev_offset := s1.m_offset
            m_prev_header := HC }) := by
      rw [stack_free_eq_of_header s4 _ ⟨padD % 256, s3.m_offset, HC, 0⟩ hdne
        (by omega) (by omega) (by omega) g_hHD]
      dsimp only
      rw [if_neg (show ¬ s4.m_prev_offset ≠ s3.m_offset from fun hne => hne g_po),
        if_neg (show ¬ HC = 0 by omega), g_hHC]
    have hfree_c : Stack.free
        { s4 with
          m_offset := s4.m_prev_offset
          m_prev_offset := s1.m_offset
          m_prev_header := HC } (s2.m_memory + s2.m_offset + padC)
        = some (true, { s4 with
            m_offset := s1.m_offset
            m_prev_offset := hdrA.prev_offset
            m_prev_header := hA }) := by
      rw [stack_free_eq_of_header
        { s4 with
          m_offset := s4.m_prev_offset
          m_prev_offset := s1.m_offset
          m_prev_header := HC } _
        ⟨padC % 256 + padB % 256, s1.m_offset, hA, HD⟩ hcne
        (show s4.m_memory ≤ s2.m_memory + s2.m_offset + padC by omega)
        (show s2.m_memory + s2.m_offset + padC ≤ s4.m_memory + s4.m_capacity
          by omega)
        (show s2.m_memory + s2.m_offset + padC <
          s4.m_memory + s4.m_prev_offset by omega)
        g_hHC]
      dsimp only
      rw [if_neg (show ¬ s1.m_offset ≠ s1.m_offset from fun hne => hne rfl),
        if_neg (show ¬ hA = 0 by omega), g_hA]
    exact ⟨_, _, hfree_d, hfree_c, rfl, hpoA, rfl⟩

/-- Witness for C4 at concrete inputs: stack at base 64, capacity 1024,
one live allocation; B at 136, C at 176; resizing B lands at 216, and the
retired-B / free-d / free-C facts all hold. -/
theorem c4_retired_middle_block_witness :
    c4s4.free 136 = some (false, c4s4) ∧
    c4s4.resize_aligned 136 8 24 16 = some (0, c4s4) ∧
    c4s4.headers 104 = some ⟨32, 40, 0, 0⟩ ∧
    ∃ s5 s6, c4s4.free 216 = some (true, s5) ∧ s5.free 176 = some (true, s6) ∧
      s6.m_offset = 40 ∧ s6.m_prev_offset = 0 ∧ s6.m_prev_header = 64 :=
  c4_retired_middle_block c4s1 64 [] 8 8 3 8 8 3 16 8 3 24 16
    136 176 216 c4s2 c4s3 c4s4
    ⟨by decide, by decide, by decide, rfl,
      ChainL.cons 64 [] ⟨32, 0, 0, 0⟩ 0 0 40 rfl rfl rfl (by decide) (by decide)
        (ChainL.nil 0)⟩
    (by decide) rfl (by decide) rfl (by decide) rfl (by decide)
    rfl (by decide) rfl (by decide) rfl (by decide)

/-! ## Theorems: Pool -/

theorem free_all_n_succ (p : Pool) (n : Nat) :
    p.free_all_n (n + 1) = poolStep (p.free_all_n n) n := by
  unfold Pool.free_all_n
  rw [List.range_succ, List.foldl_append, List.foldl_cons, List.foldl_nil]

theorem free_all_n_const (p : Pool) (n : Nat) :
    (p.free_all_n n).m_aligned_memory = p.m_aligned_memory ∧
    (p.free_all_n n).m_chunk_size = p.m_chunk_size := by
  induction n with
  | zero => exact ⟨rfl, rfl⟩
  | succ n ih =>
    rw [free_all_n_succ]
    exact ⟨ih.1, ih.2⟩

theorem free_all_n_head (p : Pool) (n : Nat) (hn : 0 < n) :
    (p.free_all_n n).m_free_list_head
      = p.m_aligned_memory + (n - 1) * p.m_chunk_size := by
  cases n with
  | zero => omega
  | succ n =>
    rw [free_all_n_succ]
    show (p.free_all_n n).m_aligned_memory + n * (p.free_all_n n).m_chunk_size
      = p.m_aligned_memory + (n + 1 - 1) * p.m_chunk_size
    rw [(free_all_n_const p n).1, (free_all_n_const p n).2, Nat.add_sub_cancel]

theorem free_all_n_nexts_hit (p : Pool) (hcs : 0 < p.m_chunk_size) :
    ∀ n i, i < n →
      (p.free_all_n n).nexts (p.m_aligned_memory + i * p.m_chunk_size)
        = some (if i = 0 then p.m_free_list_head
            else p.m_aligned_memory + (i - 1) * p.m_chunk_size) := by
  intro n
  induction n with
  | zero =>
    intro i hi
    exact absurd hi (Nat.not_lt_zero i)
  | succ n ih =>
    intro i hi
    rw [free_all_n_succ]
    show (if p.m_aligned_memory + i * p.m_chunk_size
          = (p.free_all_n n).m_aligned_memory
            + n * (p.free_all_n n).m_chunk_size
        then some (p.free_all_n n).m_free_list_head
        else (p.free_all_n n).nexts
          (p.m_aligned_memory + i * p.m_chunk_size))
      = some (if i = 0 then p.m_free_list_head
          else p.m_aligned_memory + (i - 1) * p.m_chunk_size)
    rw [(free_all_n_const p n).1, (free_all_n_const p n).2]
    by_cases hin : i = n
    · rw [if_pos (by rw [hin])]
      cases Nat.eq_zero_or_pos n with
      | inl h0 =>
        have hi0 : i = 0 := by omega
        rw [if_pos hi0]
        subst h0
        rfl
      | inr hpos =>
        rw [free_all_n_head p n hpos, if_neg (by omega), hin]
    · have hne : i * p.m_chunk_size ≠ n * p.m_chunk_size := fun h =>
        hin (Nat.eq_of_mul_eq_mul_right hcs h)
      rw [if_neg (by omega)]
      exact ih i (by omega)

theorem chunkList_succ (a cs n : Nat) :
    chunkList a cs (n + 1) = (a + n * cs) :: chunkList a cs n := by
  unfold chunkList
  rw [List.range_succ, List.reverse_append, List.reverse_singleton,
    List.singleton_append, List.map_cons]

theorem chunkList_nodup (a cs n : Nat) (hcs : 0 < cs) :
    (chunkList a cs n).Nodup := by
  have hinj : Function.Injective (fun i : Nat => a + i * cs) := by
    intro i j h
    dsimp at h
    have h2 : i * cs = j * cs := by omega
    exact Nat.eq_of_mul_eq_mul_right hcs h2
  exact List.Nodup.map hinj (List.nodup_reverse.mpr (List.nodup_range n))

theorem free_all_n_chain (p : Pool) (hh : p.m_free_list_head = 0)
    (ha : 0 < p.m_aligned_memory) (hcs : 0 < p.m_chunk_size) (n : Nat) :
    ∀ m, m ≤ n →
      ListsTo (p.free_all_n n).nexts
        (if m = 0 then 0
          else p.m_aligned_memory + (m - 1) * p.m_chunk_size)
        (chunkList p.m_aligned_memory p.m_chunk_size m) := by
  intro m
  induction m with
  | zero =>
    intro _
    rw [if_pos rfl]
    exact ListsTo.nil
  | succ m ih =>
    intro hm
    rw [if_neg (Nat.succ_ne_zero m), Nat.add_sub_cancel, chunkList_succ]
    have hv := free_all_n_nexts_hit p hcs n m (by omega)
    rw [hh] at hv
    exact ListsTo.cons _ _ _ (by omega) hv (ih (by omega))

/-- Claim C10 (amended): from a Pool state whose free-list head is null
(as inside the constructor, which is the only caller in the program),
`free_all` builds a free list consisting of exactly the
`capacity / chunk_size` chunk start addresses `aligned_memory + i *
chunk_size`, each exactly once.  From a state with a non-null head the
loop pushes the chunks onto the existing list instead of rebuilding it,
so the claim's \"regardless of how many chunks were free beforehand\" is
not preserved (see the counterexample). -/
theorem c10_free_all_amended (p : Pool) (hh : p.m_free_list_head = 0)
    (ha : 0 < p.m_aligned_memory) (hcs : 0 < p.m_chunk_size) :
    ListsTo p.free_all.nexts p.free_all.m_free_list_head
      (chunkList p.m_aligned_memory p.m_chunk_size
        (p.m_capacity / p.m_chunk_size)) ∧
    (chunkList p.m_aligned_memory p.m_chunk_size
      (p.m_capacity / p.m_chunk_size)).Nodup ∧
    ∀ x, x ∈ chunkList p.m_aligned_memory p.m_chunk_size
        (p.m_capacity / p.m_chunk_size) ↔
      ∃ i, i < p.m_capacity / p.m_chunk_size ∧
        x = p.m_aligned_memory + i * p.m_chunk_size := by
  refine ⟨?_, chunkList_nodup _ _ _ hcs, ?_⟩
  · have hfa : p.free_all = p.free_all_n (p.m_capacity / p.m_chunk_size) := rfl
    rw [hfa]
    have hchain := free_all_n_chain p hh ha hcs
      (p.m_capacity / p.m_chunk_size) (p.m_capacity / p.m_chunk_size) le_rfl
    cases Nat.eq_zero_or_pos (p.m_capacity / p.m_chunk_size) with
    | inl h0 =>
      rw [if_pos h0] at hchain
      have hhd : (p.free_all_n
          (p.m_capacity / p.m_chunk_size)).m_free_list_head = 0 := by
        rw [h0]
        exact hh
      rw [hhd]
      exact hchain
    | inr hpos =>
      rw [if_neg (by omega)] at hchain
      rw [free_all_n_head p _ hpos]
      exact hchain
  · intro x
    unfold chunkList
    simp only [List.mem_map, List.mem_reverse, List.mem_range]
    constructor
    · rintro ⟨i, hi, h⟩
      exact ⟨i, hi, h.symm⟩
    · rintro ⟨i, hi, h⟩
      exact ⟨i, hi, h.symm⟩

/-- Witness for the amended C10: a pool over a 16-byte buffer at 64 with
8-byte chunks; `free_all` from a null head yields exactly the two chunks
72 → 64 → null. -/
theorem c10_free_all_amended_witness :
    ListsTo (Pool.free_all ⟨64, 64, 16, 8, 0, fun _ => none⟩).nexts
      (Pool.free_all ⟨64, 64, 16, 8, 0, fun _ => none⟩).m_free_list_head
      (chunkList 64 8 2) ∧
    (chunkList 64 8 2).Nodup :=
  have h := c10_free_all_amended ⟨64, 64, 16, 8, 0, fun _ => none⟩ rfl
    (by decide) (by decide)
  ⟨h.1, h.2.1⟩

/-- Counterexample to C10 as stated: the pool built by the constructor
over a 16-byte buffer with two 8-byte chunks is a reachable state with a
full (non-null-headed) free list; calling `free_all` on it links the two
chunks into a cycle (72 ↔ 64), so the free list is not the chunk list —
following it never reaches null at all. -/
theorem c10_free_all_cex :
    (Pool.init 64 16 8 8).1 = true ∧
    ¬ ListsTo (Pool.free_all (Pool.init 64 16 8 8).2).nexts
        (Pool.free_all (Pool.init 64 16 8 8).2).m_free_list_head
        (chunkList (Pool.init 64 16 8 8).2.m_aligned_memory
          (Pool.init 64 16 8 8).2.m_chunk_size
          ((Pool.init 64 16 8 8).2.m_capacity
            / (Pool.init 64 16 8 8).2.m_chunk_size)) := by
  refine ⟨rfl, ?_⟩
  intro h
  have h72 : (Pool.free_all (Pool.init 64 16 8 8).2).nexts 72 = some 64 := rfl
  have h64 : (Pool.free_all (Pool.init 64 16 8 8).2).nexts 64 = some 72 := rfl
  have h' : ListsTo (Pool.free_all (Pool.init 64 16 8 8).2).nexts
      72 [72, 64] := h
  rcases h' with _ | ⟨_, v, _, hne, hnx, htail⟩
  rw [h72] at hnx
  injection hnx with hv
  subst hv
  rcases htail with _ | ⟨_, v2, _, hne2, hnx2, htail2⟩
  rw [h64] at hnx2
  injection hnx2 with hv2
  subst hv2
  cases htail2
